import Mathlib

/-!
Verification of the TGR sprite line codec (tgrlib.py) against its
specification. The Python source is shallowly embedded: pixels are records
of natural numbers, byte streams are lists of naturals (each producer emits
values below 256), `struct` packing and bit operations are expressed with
division and remainder, and fallible operations (reads past the end of a
stream, dictionary misses, failed assertions) return `Option`.

Python's `round` is banker's rounding; for every quotient the codec forms
(`c*255/31`, `c*255/63`, `c*31/255`, `c*63/255`) the exact value is never a
half-integer, so round-half-up agrees with it and is used here.
-/

/-- Rounding of the rational num/den to the nearest natural (halves up). -/
def rnd (num den : Nat) : Nat := (2 * num + den) / (2 * den)

/-- Expansion of a 5-bit channel: `round(x / 31 * 255)`. -/
def expand5 (x : Nat) : Nat := rnd (x * 255) 31

/-- Expansion of a 6-bit channel: `round(x / 63 * 255)`. -/
def expand6 (x : Nat) : Nat := rnd (x * 255) 63

/-- Quantization of an 8-bit channel to 5 bits: `round(c / 255 * 31)`. -/
def quant5 (c : Nat) : Nat := rnd (c * 31) 255

/-- Quantization of an 8-bit channel to 6 bits: `round(c / 255 * 63)`. -/
def quant6 (c : Nat) : Nat := rnd (c * 63) 255

/-- The `Pixel` dataclass: red, green, blue, alpha (alpha defaults to 0xff
at construction sites that omit it). -/
structure Pixel where
  red : Nat
  green : Nat
  blue : Nat
  alpha : Nat
deriving DecidableEq, Repr

/-- `Pixel.from_int`: unpack a 16-bit RGB565 value. The source masks with
`& 0b11111` / `& 0b111111` after shifting; on naturals that is `% 32` /
`% 64` after dividing by the corresponding power of two. Alpha is the
dataclass default 0xff. -/
def Pixel.from_int (half_word : Nat) : Pixel :=
  { red := expand5 (half_word / 2048 % 32)
    green := expand6 (half_word / 32 % 64)
    blue := expand5 (half_word % 32)
    alpha := 255 }

/-- `Pixel.to_int`: the quantized `(r5, g6, b5, a5)` tuple. -/
def Pixel.to_int (p : Pixel) : Nat × Nat × Nat × Nat :=
  (quant5 p.red, quant6 p.green, quant5 p.blue, quant5 p.alpha)

/-- The 16-bit body `(r << 11) + (g << 5) + b` that the encoder assembles
from `to_int` (encodeLine, several branches). -/
def pixelBody (p : Pixel) : Nat :=
  quant5 p.red * 2048 + quant6 p.green * 32 + quant5 p.blue

/-- The shadow sentinel `Pixel(0, 0, 0, 0x80)`. -/
def shadow : Pixel := ⟨0, 0, 0, 0x80⟩

/-- The transparent sentinel `Pixel(0, 0, 0, 0)`. -/
def transparency : Pixel := ⟨0, 0, 0, 0⟩

/-- `max_alpha`: rebuild a pixel from its RGB with the default alpha 0xff. -/
def maxAlpha (p : Pixel) : Pixel := ⟨p.red, p.green, p.blue, 255⟩

/-- `read_line_length` over a byte stream: returns the decoded value and
the number of bytes consumed. Reading 2 bytes from a stream holding fewer
returns 0 (consuming what was read); if bit 7 of the first byte is set the
two bytes are a big-endian 16-bit value masked with 0x7fff, else the first
byte alone is the value. -/
def read_line_length : List Nat → Nat × Nat
  | [] => (0, 0)
  | [_] => (0, 1)
  | b0 :: b1 :: _ =>
      if b0 / 128 % 2 = 1 then ((b0 * 256 + b1) % 32768, 2) else (b0, 1)

/-- The field writer used by `encodeLineHeader` for `total_length` and
`pixel_count`: one plain byte when the value fits in 7 bits, else a
big-endian 16-bit value with bit 15 set (`value | 0x8000`, which for the
15-bit values admitted by the encoder's assertions equals `value + 0x8000`). -/
def write_line_length (k : Nat) : List Nat :=
  if k ≤ 0x7F then [k] else [(k + 0x8000) / 256, (k + 0x8000) % 256]

lemma quant5_expand5 : ∀ x : Fin 32, quant5 (expand5 x.val) = x.val := by decide

lemma quant6_expand6 : ∀ x : Fin 64, quant6 (expand6 x.val) = x.val := by decide

lemma quant5_le (c : Nat) (hc : c ≤ 255) : quant5 c ≤ 31 := by
  unfold quant5 rnd
  have h := (Nat.div_lt_iff_lt_mul (show 0 < 2 * 255 by norm_num)).mpr
    (show 2 * (c * 31) + 255 < 32 * (2 * 255) by omega)
  omega

lemma quant6_le (c : Nat) (hc : c ≤ 255) : quant6 c ≤ 63 := by
  unfold quant6 rnd
  have h := (Nat.div_lt_iff_lt_mul (show 0 < 2 * 255 by norm_num)).mpr
    (show 2 * (c * 63) + 255 < 64 * (2 * 255) by omega)
  omega

lemma expand5_le (x : Nat) (hx : x ≤ 31) : expand5 x ≤ 255 := by
  unfold expand5 rnd
  have h := (Nat.div_lt_iff_lt_mul (show 0 < 2 * 31 by norm_num)).mpr
    (show 2 * (x * 255) + 31 < 256 * (2 * 31) by omega)
  omega

lemma expand6_le (x : Nat) (hx : x ≤ 63) : expand6 x ≤ 255 := by
  unfold expand6 rnd
  have h := (Nat.div_lt_iff_lt_mul (show 0 < 2 * 63 by norm_num)).mpr
    (show 2 * (x * 255) + 63 < 256 * (2 * 63) by omega)
  omega

lemma quant5_expand5_of_le {x : Nat} (hx : x ≤ 31) : quant5 (expand5 x) = x :=
  quant5_expand5 ⟨x, by omega⟩

lemma quant6_expand6_of_le {x : Nat} (hx : x ≤ 63) : quant6 (expand6 x) = x :=
  quant6_expand6 ⟨x, by omega⟩

/-- C3: for every 16-bit value u, unpacking as RGB565 via `Pixel.from_int`
and re-packing the `Pixel.to_int` channels as `(r5 << 11) | (g6 << 5) | b5`
returns exactly u. -/
theorem rgb565_roundtrip (u : Nat) (hu : u < 65536) :
    pixelBody (Pixel.from_int u) = u := by
  have hr : u / 2048 % 32 ≤ 31 := by omega
  have hg : u / 32 % 64 ≤ 63 := by omega
  have hb : u % 32 ≤ 31 := by omega
  unfold pixelBody Pixel.from_int
  simp only [quant5_expand5_of_le hr, quant6_expand6_of_le hg, quant5_expand5_of_le hb]
  omega

/-- Witness for C3 at the concrete input 0x1234. -/
theorem rgb565_roundtrip_witness :
    0x1234 < 65536 ∧ pixelBody (Pixel.from_int 0x1234) = 0x1234 :=
  ⟨by decide, rgb565_roundtrip 0x1234 (by decide)⟩

/-- C4: for every k ≤ 0x7FFF, writing the length-prefixed field and reading
it back (with the stream continuing past the field, as it always does
inside a line header) returns k, and the field uses exactly 1 byte when
k ≤ 0x7F and exactly 2 bytes otherwise. -/
theorem line_length_roundtrip (k : Nat) (hk : k ≤ 0x7FFF) (b : Nat) (rest : List Nat) :
    read_line_length (write_line_length k ++ b :: rest) =
      (k, (write_line_length k).length) ∧
    (write_line_length k).length = (if k ≤ 0x7F then 1 else 2) := by
  by_cases h : k ≤ 0x7F
  · have hcond : ¬ (k / 128 % 2 = 1) := by omega
    refine ⟨?_, ?_⟩
    · simp [write_line_length, if_pos h, read_line_length, hcond]
    · simp [write_line_length, if_pos h]
  · have h1 : (k + 0x8000) / 256 / 128 % 2 = 1 := by omega
    have h2 : ((k + 0x8000) / 256 * 256 + (k + 0x8000) % 256) % 32768 = k := by omega
    refine ⟨?_, ?_⟩
    · simp [write_line_length, if_neg h, read_line_length, h1, h2]
    · simp [write_line_length, if_neg h]

/-- Witness for C4 at k = 0x1ABC (two-byte form) with a continuation byte. -/
theorem line_length_roundtrip_witness :
    0x1ABC ≤ 0x7FFF ∧
    (read_line_length (write_line_length 0x1ABC ++ 7 :: []) =
        (0x1ABC, (write_line_length 0x1ABC).length) ∧
      (write_line_length 0x1ABC).length = (if 0x1ABC ≤ 0x7F then 1 else 2)) :=
  ⟨by decide, line_length_roundtrip 0x1ABC (by decide) 7 []⟩

/-- Key lookup `player_cols[color][k]` on the (insertion-ordered) shade
table of the active color; a missing key is a KeyError, hence `none`. -/
def lookupPal (pal : List (Nat × Pixel)) (k : Nat) : Option Pixel :=
  (pal.find? (fun e => e.1 == k)).map (fun e => e.2)

/-- Reverse lookup `list(keys())[list(values()).index(v)]`: the key of the
first entry whose value equals v (`ValueError`, hence `none`, if absent). -/
def revLookupPal (pal : List (Nat × Pixel)) (v : Pixel) : Option Nat :=
  (pal.find? (fun e => e.2 == v)).map (fun e => e.1)

/-- The values view `player_cols[color].values()`. -/
def palValues (pal : List (Nat × Pixel)) : List Pixel := pal.map (fun e => e.2)

/-- Flag-010 payload: read `k` successive 16bpp little-endian pixels. -/
def readRun : Nat → List Nat → Option (List Pixel)
  | 0, _ => some []
  | k + 1, b0 :: b1 :: rest =>
      (readRun k rest).map (fun tl => Pixel.from_int (b0 + 256 * b1) :: tl)
  | _ + 1, _ => none

/-- Flag-111 run payload (`run_length ≤ 27`): each byte yields two
player-color pixels, shades `((b >> 3) & 0x1F) | 1` and
`((b << 1) & 0x1F) | 1`; on an odd run length the second pixel of the
final byte is not appended. `nodd` records `run_length % 2 == 1`. -/
def decodePairs (pal : List (Nat × Pixel)) (nodd : Bool) : List Nat → Option (List Pixel)
  | [] => some []
  | b :: rest =>
      match lookupPal pal ((b / 8) % 32 / 2 * 2 + 1) with
      | none => none
      | some p1 =>
          if rest.isEmpty && nodd then some [p1]
          else
            match lookupPal pal (b * 2 % 32 + 1) with
            | none => none
            | some p2 => (decodePairs pal nodd rest).map (fun tl => p1 :: p2 :: tl)

/-- One iteration of the `extractLine` opcode loop (16bpp): given the header
byte `h` (split as `flag = h >> 5`, `n = h & 0x1F` by `getRunData`) and the
bytes following it, produce the emitted pixels and the count of payload
bytes consumed after the header. A read past the end of the stream raises
in Python, hence `none`; an over-long `fh.read` at flag 111 silently
returns the short remainder, which is modelled by `List.take`. -/
def decodeOp (pal : List (Nat × Pixel)) (h : Nat) (rest : List Nat) :
    Option (List Pixel × Nat) :=
  let flag := h / 32
  let n := h % 32
  if flag = 0 then some (List.replicate n transparency, 0)
  else if flag = 1 then
    match rest with
    | b0 :: b1 :: _ => some (List.replicate n (Pixel.from_int (b0 + 256 * b1)), 2)
    | _ => none
  else if flag = 2 then (readRun n rest).map (fun ps => (ps, 2 * n))
  else if flag = 3 then
    match rest with
    | a :: b0 :: b1 :: _ =>
        let px := Pixel.from_int (b0 + 256 * b1)
        some (List.replicate n { px with alpha := expand5 (a % 32) }, 3)
    | _ => none
  else if flag = 4 then
    match rest with
    | b0 :: b1 :: _ =>
        let px := Pixel.from_int (b0 + 256 * b1)
        some ([{ px with alpha := expand5 n }], 2)
    | _ => none
  else if flag = 5 then some (List.replicate n shadow, 0)
  else if flag = 6 then (lookupPal pal n).map (fun v => ([v], 0))
  else if flag = 7 then
    if 27 < n then
      match rest with
      | b :: _ =>
          (lookupPal pal (b / 8 % 32 / 4 * 4 + n % 4)).map
            (fun v => ([{ v with alpha := expand5 (b % 32) }], 1))
      | [] => none
    else
      (decodePairs pal (decide (n % 2 = 1)) (rest.take ((n + 1) / 2))).map
        (fun ps => (ps, (n + 1) / 2))
  else some ([], 0)

/-- The `extractLine` opcode loop: `fuel` is `data_length - line_ix`, the
declared bytes still to be consumed; the loop runs while it is positive,
and an opcode may consume bytes past the declared budget (ending the loop). -/
def decodeOps (pal : List (Nat × Pixel)) (fuel : Nat) (bytes : List Nat) :
    Option (List Pixel) :=
  if fuel = 0 then some []
  else
    match bytes with
    | [] => none
    | h :: rest =>
        match decodeOp pal h rest with
        | none => none
        | some (ps, k) =>
            match decodeOps pal (fuel - 1 - k) (rest.drop k) with
            | none => none
            | some tl => some (ps ++ tl)
termination_by fuel
decreasing_by omega

/-- The `Line` descriptor read by `Line.__init__`. -/
structure LineS where
  transparent_pixels : Nat
  pixel_length : Nat
  data_length : Nat
deriving DecidableEq, Repr

/-- `Line.__init__`: read `total_length`, `transparent_pixels` and
`pixel_length` with `read_line_length`; `data_length` is `total_length`
minus the header bytes consumed (the opcode stream follows). -/
def parseLine (stream : List Nat) : LineS × List Nat :=
  let r1 := read_line_length stream
  let s1 := stream.drop r1.2
  let r2 := read_line_length s1
  let s2 := s1.drop r2.2
  let r3 := read_line_length s2
  let s3 := s2.drop r3.2
  (⟨r2.1, r3.1, r1.1 - (r1.2 + r2.2 + r3.2)⟩, s3)

/-- `extractLine` (16bpp): emit `transparent_pixels` sentinels, run the
opcode loop over `data_length` bytes, then pad with transparent pixels up
to `pixel_length` if the output is short. -/
def extractLine (pal : List (Nat × Pixel)) (ln : LineS) (ops : List Nat) :
    Option (List Pixel) :=
  match decodeOps pal ln.data_length ops with
  | none => none
  | some ps =>
      let out := List.replicate ln.transparent_pixels transparency ++ ps
      some (out ++ List.replicate (ln.pixel_length - out.length) transparency)

/-- Parse a line header from a byte stream and extract its pixels. -/
def decodeLine (pal : List (Nat × Pixel)) (stream : List Nat) : Option (List Pixel) :=
  extractLine pal (parseLine stream).1 (parseLine stream).2

/-- C2: on a valid opcode stream (one the loop decodes without error and
whose production does not overrun the declared length) the decoder emits
the `transparent_pixels` sentinels, the loop's pixels, and transparent tail
padding, for a total of exactly `pixel_length` pixels. -/
theorem decoder_yields_pixel_length (pal : List (Nat × Pixel)) (ln : LineS)
    (ops : List Nat) (ps : List Pixel)
    (hdec : decodeOps pal ln.data_length ops = some ps)
    (hfit : ln.transparent_pixels + ps.length ≤ ln.pixel_length) :
    extractLine pal ln ops =
      some (List.replicate ln.transparent_pixels transparency ++ ps ++
        List.replicate (ln.pixel_length - (ln.transparent_pixels + ps.length))
          transparency) ∧
    (List.replicate ln.transparent_pixels transparency ++ ps ++
        List.replicate (ln.pixel_length - (ln.transparent_pixels + ps.length))
          transparency).length = ln.pixel_length := by
  unfold extractLine
  rw [hdec]
  constructor
  · simp [List.append_assoc]
  · simp
    omega

/-- Witness for C2: a stream with one flag-000 opcode, one leading
transparent pixel, and tail padding up to `pixel_length = 4`. -/
theorem decoder_yields_pixel_length_witness :
    (decodeOps [] (LineS.mk 1 4 1).data_length [2] = some [transparency, transparency] ∧
      (LineS.mk 1 4 1).transparent_pixels + [transparency, transparency].length ≤
        (LineS.mk 1 4 1).pixel_length) ∧
    (extractLine [] (LineS.mk 1 4 1) [2] =
      some (List.replicate 1 transparency ++ [transparency, transparency] ++
        List.replicate 1 transparency) ∧
    (List.replicate 1 transparency ++ [transparency, transparency] ++
        List.replicate 1 transparency).length = 4) := by
  have h1 : decodeOps [] (LineS.mk 1 4 1).data_length [2] = some [transparency, transparency] := by
    simp [decodeOps, decodeOp, List.replicate]
  have h2 : (LineS.mk 1 4 1).transparent_pixels + [transparency, transparency].length ≤
      (LineS.mk 1 4 1).pixel_length := by decide
  refine ⟨⟨h1, h2⟩, ?_⟩
  have := decoder_yields_pixel_length [] (LineS.mk 1 4 1) [2] [transparency, transparency] h1 h2
  simpa using this

/-- A concrete 32-shade player-color table with pairwise distinct opaque
values, standing in for one color of the parsed COLORS.INI data. -/
def palStd : List (Nat × Pixel) :=
  (List.range 32).map (fun i => (i, ⟨40 + i, 2 * i, 3 * i, 255⟩))

/-- Counterexample to C5: a flag-111 opcode with n = 2 consumes 1 payload
byte, not the ⌈(n+1)/2⌉ = 2 bytes the claim states (the source computes
`(run_length + 1) // 2`, a floor). -/
theorem flag111_payload_count_counterexample :
    decodeOp palStd (7 * 32 + 2) [5, 99] =
      some ([⟨41, 2, 3, 255⟩, ⟨51, 22, 33, 255⟩], 1) ∧
    (1 : Nat) ≠ (2 + 1 + 1) / 2 := by decide

/-- Modelled from the spec (§4.C, flag-111 with n ≤ 27): for each payload
byte b emit two player-color pixels, the first with shade
`((b >> 3) & 0x1F) | 1`, the second with shade `((b << 1) & 0x1F) | 1`,
except that when n is odd the second pixel of the final byte is discarded. -/
def flag111PairsSpec (pal : List (Nat × Pixel)) (n : Nat) : List Nat → Option (List Pixel)
  | [] => some []
  | b :: rest =>
      match lookupPal pal ((b / 8) % 32 / 2 * 2 + 1) with
      | none => none
      | some p1 =>
          if rest = [] ∧ n % 2 = 1 then some [p1]
          else
            match lookupPal pal (b * 2 % 32 + 1) with
            | none => none
            | some p2 => (flag111PairsSpec pal n rest).map (fun tl => p1 :: p2 :: tl)

lemma decodePairs_eq_spec (pal : List (Nat × Pixel)) (n : Nat) (payload : List Nat) :
    decodePairs pal (decide (n % 2 = 1)) payload = flag111PairsSpec pal n payload := by
  induction payload with
  | nil => rfl
  | cons b rest ih =>
      unfold decodePairs flag111PairsSpec
      cases h1 : lookupPal pal ((b / 8) % 32 / 2 * 2 + 1) with
      | none => rfl
      | some p1 =>
          by_cases hlast : rest = []
          · subst hlast
            by_cases hodd : n % 2 = 1
            · simp [hodd]
            · cases h2 : lookupPal pal (b * 2 % 32 + 1) <;>
                simp [hodd, h2, decodePairs, flag111PairsSpec]
          · have hne : rest.isEmpty = false := by
              cases rest with
              | nil => exact absurd rfl hlast
              | cons _ _ => rfl
            cases h2 : lookupPal pal (b * 2 % 32 + 1) <;> simp [hne, hlast, h2, ih]

/-- C5 (amended): a flag-111 opcode with n ≤ 27 consumes exactly
⌊(n+1)/2⌋ payload bytes and emits the byte-pair pixels of the
specification (second pixel of the final byte discarded when n is odd). -/
theorem flag111_low_payload (pal : List (Nat × Pixel)) (n : Nat) (hn : n ≤ 27)
    (payload rest : List Nat) (hlen : payload.length = (n + 1) / 2) :
    decodeOp pal (7 * 32 + n) (payload ++ rest) =
      (flag111PairsSpec pal n payload).map (fun ps => (ps, (n + 1) / 2)) := by
  have hflag : (7 * 32 + n) / 32 = 7 := by omega
  have hn32 : (7 * 32 + n) % 32 = n := by omega
  have h27 : ¬ (27 < n) := by omega
  unfold decodeOp
  simp only [hflag, hn32, if_neg h27]
  norm_num
  rw [← hlen, List.take_left, decodePairs_eq_spec, hlen]

/-- Witness for C5 at n = 3 with payload bytes [0x54, 0xAA]. -/
theorem flag111_low_payload_witness :
    (3 ≤ 27 ∧ [0x54, 0xAA].length = (3 + 1) / 2) ∧
    decodeOp palStd (7 * 32 + 3) ([0x54, 0xAA] ++ []) =
      (flag111PairsSpec palStd 3 [0x54, 0xAA]).map (fun ps => (ps, (3 + 1) / 2)) :=
  ⟨⟨by decide, by decide⟩, flag111_low_payload palStd 3 (by decide) [0x54, 0xAA] [] (by decide)⟩

/-- The palette guard used inside `look_ahead`:
`color and max_alpha(q) in player_cols[color].values()`. The active color
is `copt` (id and shade table); Python truthiness makes a color id of 0
skip the test. -/
def paletteBreakTruthy (copt : Option (Nat × List (Nat × Pixel))) (q : Pixel) : Bool :=
  match copt with
  | none => false
  | some (c, pal) => decide (c ≠ 0) && (palValues pal).contains (maxAlpha q)

/-- `look_ahead` with `matching=True`: count pixels after `pixel_ix` equal
to p, stopping at the row boundary, a differing pixel, a palette pixel
(when a truthy color is active), or the cap (22 when `translucent`, 23
otherwise). `li * W` locates the line inside the flattened frame data. -/
def look_ahead_matching (copt : Option (Nat × List (Nat × Pixel))) (img : List Pixel)
    (W li : Nat) (p : Pixel) (pixel_ix : Nat) (translucent : Bool)
    (collected : Nat) : Option Nat :=
  if h : pixel_ix + collected + 1 < W then
    match img[li * W + pixel_ix + collected + 1]? with
    | none => none
    | some next =>
        if p ≠ next then some collected
        else if paletteBreakTruthy copt next then some collected
        else if translucent = true ∧ collected + 1 = 22 then some (collected + 1)
        else if collected + 1 = 23 then some (collected + 1)
        else look_ahead_matching copt img W li p pixel_ix translucent (collected + 1)
  else some collected
termination_by W - collected
decreasing_by omega

/-- Loop body of `look_ahead` with `matching=False`: count pairwise
distinct, fully opaque, non-palette pixels starting at `pixel_ix`; note
the read of the successor happens before any check, so a run reaching the
final pixel of the flattened frame data reads one element past it. -/
def look_ahead_nm_loop (copt : Option (Nat × List (Nat × Pixel))) (img : List Pixel)
    (W li pixel_ix : Nat) (collected : Nat) : Option Nat :=
  if h : W ≤ pixel_ix + collected then some collected
  else
    match img[li * W + pixel_ix + collected]?, img[li * W + pixel_ix + collected + 1]? with
    | some this_px, some next_px =>
        if this_px = next_px ∨ this_px.alpha ≠ 255 then some collected
        else if paletteBreakTruthy copt this_px then some collected
        else if collected + 1 = 31 then some 31
        else look_ahead_nm_loop copt img W li pixel_ix (collected + 1)
    | _, _ => none
termination_by W - collected
decreasing_by omega

/-- `look_ahead` with `matching=False`: the last pixel of a row is returned
as a 1-run without comparison; otherwise run the loop from 0. -/
def look_ahead_non_matching (copt : Option (Nat × List (Nat × Pixel))) (img : List Pixel)
    (W li pixel_ix : Nat) : Option Nat :=
  if (pixel_ix : Int) = (W : Int) - 1 then some 1
  else look_ahead_nm_loop copt img W li pixel_ix 0

/-- The encoder's transparent scan-ahead taken when a look-ahead run is
exactly 31: keep collecting further 31-runs; the trailing `collected += ct`
uses the walrus variable, a NameError (`none`) if the loop guard failed
before its first evaluation. -/
def scan_ahead (img : List Pixel) (W li pixel_ix : Nat) (collected : Nat)
    (ctLast : Option Nat) : Option Nat :=
  if h : pixel_ix + collected < W then
    match look_ahead_matching none img W li transparency (pixel_ix + collected) false 0 with
    | none => none
    | some la =>
        let ct0 := la + 1
        if ct0 = 31 then scan_ahead img W li pixel_ix (collected + ct0) (some ct0)
        else some (collected + ct0)
  else
    match ctLast with
    | none => none
    | some c => some (collected + c)
termination_by W - collected
decreasing_by omega

/-- The flag-010 body loop: 16-bit little-endian bodies of `count` pixels
starting at `pixel_ix + i` (each `struct.pack('<H', ...)`, failing past
0xFFFF). -/
def literalBytes (img : List Pixel) (W li pixel_ix : Nat) : Nat → Nat → Option (List Nat)
  | _, 0 => some []
  | i, k + 1 =>
      match img[li * W + pixel_ix + i]? with
      | none => none
      | some q =>
          let body := pixelBody q
          if 0xFFFF < body then none
          else (literalBytes img W li pixel_ix (i + 1) k).map
            (fun tl => body % 256 :: body / 256 :: tl)

/-- `encodeLineHeader`: assert the three bounds, then pack `total_length`
(the opcode-stream length plus the header's own 3-5 bytes), the 1-byte
`offset`, and `pixel_count`, the variable-width fields via the
`write_line_length` format, followed by the opcode stream. -/
def encodeLineHeader (outbuf : List Nat) (ct_pixels offset : Nat) : Option (List Nat) :=
  let line_length := outbuf.length
  if line_length ≤ 0x7FFA ∧ offset ≤ 0xFF ∧ ct_pixels ≤ 0x7FFF then
    let hl1 := if 0x7F < ct_pixels then 4 else 3
    let hl2 := if 0x7F < line_length + hl1 then hl1 + 1 else hl1
    some (write_line_length (line_length + hl2) ++
      offset :: (write_line_length ct_pixels ++ outbuf))
  else none

/-- The `encodeLine` pixel loop (16bpp). State: `pixel_ix`, `offset`
(leading transparent count), `ct_pixels` (opcode-produced pixels),
`padding_complete`, the opcode bytes so far, and the last value assigned
to the Python variable `body` (read stale by the fallback branch; `none`
models the NameError when no assignment has happened). Returns the opcode
stream, `ct_pixels` and `offset`. -/
def encodeLineLoop (copt : Option (Nat × List (Nat × Pixel))) (img : List Pixel)
    (W li : Nat) (pixel_ix offset ct_pixels : Nat) (padding_complete : Bool)
    (outbuf : List Nat) (lastBody : Option Nat) : Option (List Nat × Nat × Nat) :=
  if hW : W ≤ pixel_ix then some (outbuf, ct_pixels, offset)
  else
    match img[li * W + pixel_ix]? with
    | none => none
    | some p =>
      let pad := padding_complete || decide (p ≠ transparency)
      if p = transparency then
        match look_ahead_matching none img W li p pixel_ix false 0 with
        | none => none
        | some la =>
          let run := la + 1
          if pad = false then
            encodeLineLoop copt img W li (pixel_ix + run) (offset + run) ct_pixels pad
              outbuf lastBody
          else if W ≤ pixel_ix + run then some (outbuf, ct_pixels, offset)
          else if run = 31 then
            match scan_ahead img W li pixel_ix run none with
            | none => none
            | some collected =>
              if W ≤ pixel_ix + collected then some (outbuf, ct_pixels, offset)
              else
                encodeLineLoop copt img W li (pixel_ix + run) offset (ct_pixels + run) pad
                  (outbuf ++ [run % 32]) lastBody
          else
            encodeLineLoop copt img W li (pixel_ix + run) offset (ct_pixels + run) pad
              (outbuf ++ [run % 32]) lastBody
      else if p = shadow then
        match look_ahead_matching none img W li p pixel_ix false 0 with
        | none => none
        | some la =>
          let ct_shadow := la + 1
          encodeLineLoop copt img W li (pixel_ix + ct_shadow) offset (ct_pixels + ct_shadow)
            pad (outbuf ++ [5 * 32 + ct_shadow % 32]) lastBody
      else
        match (match copt with
          | some (c, pal) =>
              if (palValues pal).contains (maxAlpha p) then some (c, pal) else none
          | none => none) with
        | some (_c, pal) =>
          if p.alpha < 255 then
            match revLookupPal pal (maxAlpha p) with
            | none => none
            | some ci =>
              let ciL := ci % 4
              let ciH := (ci % 32 - ci % 4) * 8
              let a := quant5 p.alpha % 32
              let body := ciH + a
              encodeLineLoop copt img W li (pixel_ix + 1) offset (ct_pixels + 1) pad
                (outbuf ++ [7 * 32 + 28 + ciL, body]) (some body)
          else
            match revLookupPal pal p with
            | none => none
            | some ci =>
              encodeLineLoop copt img W li (pixel_ix + 1) offset (ct_pixels + 1) pad
                (outbuf ++ [6 * 32 + ci % 32]) lastBody
        | none =>
          if p.alpha < 255 then
            match look_ahead_matching none img W li p pixel_ix true 0 with
            | none => none
            | some la =>
              let run := la + 1
              let a := quant5 p.alpha
              let body := pixelBody p
              if run = 1 then
                if 0xFFFF < body then none
                else
                  encodeLineLoop copt img W li (pixel_ix + 1) offset (ct_pixels + 1) pad
                    (outbuf ++ [4 * 32 + a % 32, body % 256, body / 256]) (some body)
              else
                if 0xFFFF < body ∨ 0xFF < a then none
                else
                  encodeLineLoop copt img W li (pixel_ix + run) offset (ct_pixels + run) pad
                    (outbuf ++ [3 * 32 + run % 32, a, body % 256, body / 256]) (some body)
          else
            match look_ahead_matching copt img W li p pixel_ix false 0 with
            | none => none
            | some m =>
              if hm : m ≠ 0 then
                let run := m + 1
                let body := pixelBody p
                if 0xFFFF < body then none
                else
                  encodeLineLoop copt img W li (pixel_ix + run) offset (ct_pixels + run) pad
                    (outbuf ++ [1 * 32 + run % 32, body % 256, body / 256]) (some body)
              else
                match look_ahead_non_matching copt img W li pixel_ix with
                | none => none
                | some nm =>
                  if hnm : nm ≠ 0 then
                    match literalBytes img W li pixel_ix 0 nm,
                        img[li * W + pixel_ix + (nm - 1)]? with
                    | some bs, some lastq =>
                        encodeLineLoop copt img W li (pixel_ix + nm) offset (ct_pixels + nm)
                          pad (outbuf ++ (2 * 32 + nm % 32) :: bs) (some (pixelBody lastq))
                    | _, _ => none
                  else
                    match lastBody with
                    | none => none
                    | some bv =>
                        if 0xFFFF < bv then none
                        else
                          encodeLineLoop copt img W li (pixel_ix + 1) offset (ct_pixels + 1)
                            pad (outbuf ++ [0b01000001, bv % 256, bv / 256]) lastBody
termination_by W - pixel_ix
decreasing_by all_goals omega

/-- `encodeLine`: run the pixel loop over line `li` of the flattened frame
data and pack the line header in front of the opcode stream. -/
def encodeLine (copt : Option (Nat × List (Nat × Pixel))) (img : List Pixel)
    (W li : Nat) : Option (List Nat) :=
  match encodeLineLoop copt img W li 0 0 0 false [] none with
  | none => none
  | some (outbuf, ct_pixels, offset) => encodeLineHeader outbuf ct_pixels offset

/-- Counterexample to C6: encoding the width-1 row of the single opaque red
pixel emits a flag-010 (literal) opcode, header byte 0x41, not the claimed
flag-001 header 0x21: the matching look-ahead returns 0 on a width-1 row,
so the encoder never reaches the solid-run opcode for a singleton. -/
theorem single_red_scenario_counterexample :
    encodeLine none [⟨255, 0, 0, 255⟩] 1 0 = some [6, 0, 1, 2 * 32 + 1, 0, 248] ∧
    [6, 0, 1, 2 * 32 + 1, 0, 248] ≠ [6, 0, 1, 1 * 32 + 1, 0, 248] := by
  constructor
  · simp [encodeLine, encodeLineLoop, look_ahead_matching, look_ahead_non_matching,
      look_ahead_nm_loop, paletteBreakTruthy, literalBytes, pixelBody, quant5, quant6,
      rnd, encodeLineHeader, write_line_length, transparency, shadow, maxAlpha]
  · decide

/-- C6 (amended): the single opaque red pixel encodes to a flag-010 header
with n = 1 followed by the little-endian RGB565 body 0xF800, with line
header total_length = 6, offset = 0, pixel_count = 1. -/
theorem single_red_scenario :
    encodeLine none [⟨255, 0, 0, 255⟩] 1 0 =
      some (write_line_length 6 ++ 0 :: write_line_length 1 ++
        [2 * 32 + 1, 0xF800 % 256, 0xF800 / 256]) := by
  simp [encodeLine, encodeLineLoop, look_ahead_matching, look_ahead_non_matching,
    look_ahead_nm_loop, paletteBreakTruthy, literalBytes, pixelBody, quant5, quant6,
    rnd, encodeLineHeader, write_line_length, transparency, shadow, maxAlpha]

/-- C7: evaluating the encoder on a row whose third pixel defeats both
look-aheads (its alpha 300 is not 255, so it is reached through the opaque
branch yet breaks the non-matching scan immediately). The fallback emits
header 0x41 followed by the STALE 16-bit variable `body` — here 0xF800,
bytes [0, 248], left over from the flag-001 run — although the source's
own diagnostic says "defaulting to 0x0000" (and its `pixel = 0x0000`
assignment is never packed). Encoding continues past the fallback. -/
theorem fallback_packs_stale_body :
    encodeLine none
        [⟨255, 0, 0, 255⟩, ⟨255, 0, 0, 255⟩, ⟨1, 2, 3, 300⟩, ⟨255, 0, 0, 255⟩] 4 0 =
      some [12, 0, 4, 1 * 32 + 2, 0, 248, 0b01000001, 0xF800 % 256, 0xF800 / 256,
        2 * 32 + 1, 0, 248] ∧
    (0xF800 : Nat) ≠ 0x0000 := by
  constructor
  · simp [encodeLine, encodeLineLoop, look_ahead_matching, look_ahead_non_matching,
      look_ahead_nm_loop, paletteBreakTruthy, literalBytes, pixelBody, quant5, quant6,
      rnd, encodeLineHeader, write_line_length, transparency, shadow, maxAlpha]
  · decide

/-- Counterexample to C9: decoding the two-byte flag-111 opcode 0xFD 0x54
yields the shade-9 pixel with alpha 165, not the claimed
round(20/31*255) = 164 (the correct rounding of 164.516... is 165). -/
theorem translucent_player_scenario_counterexample :
    decodeLine palStd [5, 0, 1, 253, 84] = some [⟨49, 18, 27, 165⟩] ∧
    expand5 20 = 165 ∧ (165 : Nat) ≠ 164 := by
  refine ⟨?_, by decide, by decide⟩
  simp [decodeLine, parseLine, read_line_length, extractLine, decodeOps, decodeOp,
    lookupPal, palStd, expand5, rnd, List.range_succ]

/-- C9 (amended): encoding the single translucent player-color pixel at
shade 9 with a5 = 20 (alpha 165) produces the flag-111 header byte with
n = 0b11101 = 29 and payload byte 0x54, and decoding those two bytes
yields one pixel whose RGB is the active player's shade-9 entry and whose
alpha is round(20/31*255) = 165. -/
theorem translucent_player_scenario :
    encodeLine (some (2, palStd)) [⟨49, 18, 27, 165⟩] 1 0 =
      some [5, 0, 1, 7 * 32 + 29, 0x54] ∧
    lookupPal palStd 9 = some ⟨49, 18, 27, 255⟩ ∧
    decodeLine palStd [5, 0, 1, 7 * 32 + 29, 0x54] =
      some [⟨49, 18, 27, expand5 20⟩] ∧
    expand5 20 = 165 := by
  refine ⟨?_, by decide, ?_, by decide⟩
  · simp [encodeLine, encodeLineLoop, look_ahead_matching, look_ahead_non_matching,
      look_ahead_nm_loop, paletteBreakTruthy, literalBytes, pixelBody, quant5, quant6,
      rnd, encodeLineHeader, write_line_length, transparency, shadow, maxAlpha,
      revLookupPal, palValues, palStd, List.range_succ]
  · simp [decodeLine, parseLine, read_line_length, extractLine, decodeOps, decodeOp,
      lookupPal, palStd, expand5, rnd, List.range_succ]

lemma la_m_le_false : ∀ (fuel : Nat) (copt : Option (Nat × List (Nat × Pixel)))
    (img : List Pixel) (W li : Nat) (p : Pixel) (pixel_ix collected r : Nat),
    23 - collected ≤ fuel → collected ≤ 22 →
    look_ahead_matching copt img W li p pixel_ix false collected = some r → r ≤ 23 := by
  intro fuel
  induction fuel with
  | zero =>
      intro copt img W li p pixel_ix collected r hf hc _
      omega
  | succ f ih =>
      intro copt img W li p pixel_ix collected r hf hc hsome
      unfold look_ahead_matching at hsome
      split at hsome
      · split at hsome
        · exact absurd hsome (by simp)
        · split_ifs at hsome with h1 h2 h3 h4
          · exact Option.some.inj hsome ▸ by omega
          · exact Option.some.inj hsome ▸ by omega
          · exact absurd h3.1 (by simp)
          · exact Option.some.inj hsome ▸ by omega
          · exact ih copt img W li p pixel_ix (collected + 1) r (by omega) (by omega) hsome
      · exact Option.some.inj hsome ▸ by omega

lemma la_m_le_true : ∀ (fuel : Nat) (copt : Option (Nat × List (Nat × Pixel)))
    (img : List Pixel) (W li : Nat) (p : Pixel) (pixel_ix collected r : Nat),
    22 - collected ≤ fuel → collected ≤ 21 →
    look_ahead_matching copt img W li p pixel_ix true collected = some r → r ≤ 22 := by
  intro fuel
  induction fuel with
  | zero =>
      intro copt img W li p pixel_ix collected r hf hc _
      omega
  | succ f ih =>
      intro copt img W li p pixel_ix collected r hf hc hsome
      unfold look_ahead_matching at hsome
      split at hsome
      · split at hsome
        · exact absurd hsome (by simp)
        · split_ifs at hsome with h1 h2 h3 h4
          · exact Option.some.inj hsome ▸ by omega
          · exact Option.some.inj hsome ▸ by omega
          · exact Option.some.inj hsome ▸ by omega
          · exact Option.some.inj hsome ▸ by omega
          · have h22 : collected + 1 ≠ 22 := fun hcc => h3 ⟨rfl, hcc⟩
            exact ih copt img W li p pixel_ix (collected + 1) r (by omega) (by omega) hsome
      · exact Option.some.inj hsome ▸ by omega

lemma la_nm_loop_le : ∀ (fuel : Nat) (copt : Option (Nat × List (Nat × Pixel)))
    (img : List Pixel) (W li pixel_ix collected r : Nat),
    31 - collected ≤ fuel → collected ≤ 30 →
    look_ahead_nm_loop copt img W li pixel_ix collected = some r → r ≤ 31 := by
  intro fuel
  induction fuel with
  | zero =>
      intro copt img W li pixel_ix collected r hf hc _
      omega
  | succ f ih =>
      intro copt img W li pixel_ix collected r hf hc hsome
      unfold look_ahead_nm_loop at hsome
      split at hsome
      · exact Option.some.inj hsome ▸ by omega
      · split at hsome
        · split_ifs at hsome with h1 h2 h3
          · exact Option.some.inj hsome ▸ by omega
          · exact Option.some.inj hsome ▸ by omega
          · exact Option.some.inj hsome ▸ by omega
          · exact ih copt img W li pixel_ix (collected + 1) r (by omega) (by omega) hsome
        · exact absurd hsome (by simp)

/-- Bound for the matching look-ahead as called (`collected = 0`). -/
lemma look_ahead_matching_le (copt : Option (Nat × List (Nat × Pixel))) (img : List Pixel)
    (W li : Nat) (p : Pixel) (pixel_ix r : Nat) (translucent : Bool)
    (hsome : look_ahead_matching copt img W li p pixel_ix translucent 0 = some r) :
    r ≤ 23 ∧ (translucent = true → r ≤ 22) := by
  cases translucent with
  | false =>
      exact ⟨la_m_le_false 23 copt img W li p pixel_ix 0 r (by omega) (by omega) hsome,
        by intro hf; cases hf⟩
  | true =>
      have := la_m_le_true 22 copt img W li p pixel_ix 0 r (by omega) (by omega) hsome
      exact ⟨by omega, fun _ => this⟩

/-- Bound for the non-matching look-ahead. -/
lemma look_ahead_non_matching_le (copt : Option (Nat × List (Nat × Pixel)))
    (img : List Pixel) (W li pixel_ix r : Nat)
    (hsome : look_ahead_non_matching copt img W li pixel_ix = some r) : r ≤ 31 := by
  unfold look_ahead_non_matching at hsome
  split at hsome
  · exact Option.some.inj hsome ▸ by omega
  · exact la_nm_loop_le 31 copt img W li pixel_ix 0 r (by omega) (by omega) hsome

/-- Twin of `encodeLineLoop` without the transparent `run_length == 31`
scan-ahead branch and without the `& 0b11111` masks on the run-length
fields of flags 000, 001, 010, 011 and 101 (all other bytes unchanged).
C10 states the loop never distinguishes the two. -/
def encodeLineLoopPlain (copt : Option (Nat × List (Nat × Pixel))) (img : List Pixel)
    (W li : Nat) (pixel_ix offset ct_pixels : Nat) (padding_complete : Bool)
    (outbuf : List Nat) (lastBody : Option Nat) : Option (List Nat × Nat × Nat) :=
  if hW : W ≤ pixel_ix then some (outbuf, ct_pixels, offset)
  else
    match img[li * W + pixel_ix]? with
    | none => none
    | some p =>
      let pad := padding_complete || decide (p ≠ transparency)
      if p = transparency then
        match look_ahead_matching none img W li p pixel_ix false 0 with
        | none => none
        | some la =>
          let run := la + 1
          if pad = false then
            encodeLineLoopPlain copt img W li (pixel_ix + run) (offset + run) ct_pixels pad
              outbuf lastBody
          else if W ≤ pixel_ix + run then some (outbuf, ct_pixels, offset)
          else
            encodeLineLoopPlain copt img W li (pixel_ix + run) offset (ct_pixels + run) pad
              (outbuf ++ [run]) lastBody
      else if p = shadow then
        match look_ahead_matching none img W li p pixel_ix false 0 with
        | none => none
        | some la =>
          let ct_shadow := la + 1
          encodeLineLoopPlain copt img W li (pixel_ix + ct_shadow) offset
            (ct_pixels + ct_shadow) pad (outbuf ++ [5 * 32 + ct_shadow]) lastBody
      else
        match (match copt with
          | some (c, pal) =>
              if (palValues pal).contains (maxAlpha p) then some (c, pal) else none
          | none => none) with
        | some (_c, pal) =>
          if p.alpha < 255 then
            match revLookupPal pal (maxAlpha p) with
            | none => none
            | some ci =>
              let ciL := ci % 4
              let ciH := (ci % 32 - ci % 4) * 8
              let a := quant5 p.alpha % 32
              let body := ciH + a
              encodeLineLoopPlain copt img W li (pixel_ix + 1) offset (ct_pixels + 1) pad
                (outbuf ++ [7 * 32 + 28 + ciL, body]) (some body)
          else
            match revLookupPal pal p with
            | none => none
            | some ci =>
              encodeLineLoopPlain copt img W li (pixel_ix + 1) offset (ct_pixels + 1) pad
                (outbuf ++ [6 * 32 + ci % 32]) lastBody
        | none =>
          if p.alpha < 255 then
            match look_ahead_matching none img W li p pixel_ix true 0 with
            | none => none
            | some la =>
              let run := la + 1
              let a := quant5 p.alpha
              let body := pixelBody p
              if run = 1 then
                if 0xFFFF < body then none
                else
                  encodeLineLoopPlain copt img W li (pixel_ix + 1) offset (ct_pixels + 1) pad
                    (outbuf ++ [4 * 32 + a % 32, body % 256, body / 256]) (some body)
              else
                if 0xFFFF < body ∨ 0xFF < a then none
                else
                  encodeLineLoopPlain copt img W li (pixel_ix + run) offset (ct_pixels + run)
                    pad (outbuf ++ [3 * 32 + run, a, body % 256, body / 256]) (some body)
          else
            match look_ahead_matching copt img W li p pixel_ix false 0 with
            | none => none
            | some m =>
              if hm : m ≠ 0 then
                let run := m + 1
                let body := pixelBody p
                if 0xFFFF < body then none
                else
                  encodeLineLoopPlain copt img W li (pixel_ix + run) offset (ct_pixels + run)
                    pad (outbuf ++ [1 * 32 + run, body % 256, body / 256]) (some body)
              else
                match look_ahead_non_matching copt img W li pixel_ix with
                | none => none
                | some nm =>
                  if hnm : nm ≠ 0 then
                    match literalBytes img W li pixel_ix 0 nm,
                        img[li * W + pixel_ix + (nm - 1)]? with
                    | some bs, some lastq =>
                        encodeLineLoopPlain copt img W li (pixel_ix + nm) offset
                          (ct_pixels + nm) pad (outbuf ++ (2 * 32 + nm) :: bs)
                          (some (pixelBody lastq))
                    | _, _ => none
                  else
                    match lastBody with
                    | none => none
                    | some bv =>
                        if 0xFFFF < bv then none
                        else
                          encodeLineLoopPlain copt img W li (pixel_ix + 1) offset
                            (ct_pixels + 1) pad (outbuf ++ [0b01000001, bv % 256, bv / 256])
                            lastBody
termination_by W - pixel_ix
decreasing_by all_goals omega

lemma encodeLineLoop_eq_plain_aux : ∀ (n : Nat) (copt : Option (Nat × List (Nat × Pixel)))
    (img : List Pixel) (W li pixel_ix offset ct_pixels : Nat) (padding_complete : Bool)
    (outbuf : List Nat) (lastBody : Option Nat), W - pixel_ix ≤ n →
    encodeLineLoop copt img W li pixel_ix offset ct_pixels padding_complete outbuf lastBody =
    encodeLineLoopPlain copt img W li pixel_ix offset ct_pixels padding_complete outbuf
      lastBody := by
  intro n
  induction n with
  | zero =>
      intro copt img W li pixel_ix offset ct_pixels padding_complete outbuf lastBody hn
      have hW : W ≤ pixel_ix := by omega
      unfold encodeLineLoop encodeLineLoopPlain
      simp only [dif_pos hW]
  | succ f ih =>
      intro copt img W li pixel_ix offset ct_pixels padding_complete outbuf lastBody hn
      by_cases hW : W ≤ pixel_ix
      · unfold encodeLineLoop encodeLineLoopPlain
        simp only [dif_pos hW]
      · unfold encodeLineLoop encodeLineLoopPlain
        simp only [dif_neg hW]
        cases himg : img[li * W + pixel_ix]? with
        | none => rfl
        | some p =>
          simp only []
          by_cases htr : p = transparency
          · simp only [if_pos htr]
            cases hla : look_ahead_matching none img W li p pixel_ix false 0 with
            | none => rfl
            | some la =>
              simp only []
              have hla23 : la ≤ 23 := (look_ahead_matching_le _ _ _ _ _ _ _ _ hla).1
              by_cases hpad : (padding_complete || decide (p ≠ transparency)) = false
              · simp only [if_pos hpad]
                exact ih copt img W li (pixel_ix + (la + 1)) (offset + (la + 1)) ct_pixels
                  (padding_complete || decide (p ≠ transparency)) outbuf lastBody (by omega)
              · simp only [if_neg hpad]
                by_cases hend : W ≤ pixel_ix + (la + 1)
                · simp only [if_pos hend]
                · simp only [if_neg hend]
                  have h31 : ¬ (la + 1 = 31) := by omega
                  simp only [if_neg h31]
                  rw [Nat.mod_eq_of_lt (show la + 1 < 32 by omega)]
                  exact ih copt img W li (pixel_ix + (la + 1)) offset (ct_pixels + (la + 1))
                    (padding_complete || decide (p ≠ transparency)) (outbuf ++ [la + 1])
                    lastBody (by omega)
          · simp only [if_neg htr]
            by_cases hsh : p = shadow
            · simp only [if_pos hsh]
              cases hla : look_ahead_matching none img W li p pixel_ix false 0 with
              | none => rfl
              | some la =>
                simp only []
                have hla23 : la ≤ 23 := (look_ahead_matching_le _ _ _ _ _ _ _ _ hla).1
                rw [Nat.mod_eq_of_lt (show la + 1 < 32 by omega)]
                exact ih copt img W li (pixel_ix + (la + 1)) offset (ct_pixels + (la + 1))
                  (padding_complete || decide (p ≠ transparency))
                  (outbuf ++ [5 * 32 + (la + 1)]) lastBody (by omega)
            · simp only [if_neg hsh]
              cases hpm : (match copt with
                | some (c, pal) =>
                    if (palValues pal).contains (maxAlpha p) then some (c, pal) else none
                | none => none) with
              | some cp =>
                obtain ⟨c, pal⟩ := cp
                simp only []
                by_cases halpha : p.alpha < 255
                · simp only [if_pos halpha]
                  cases hrev : revLookupPal pal (maxAlpha p) with
                  | none => rfl
                  | some ci =>
                    simp only []
                    exact ih copt img W li (pixel_ix + 1) offset (ct_pixels + 1)
                      (padding_complete || decide (p ≠ transparency))
                      (outbuf ++ [7 * 32 + 28 + ci % 4, (ci % 32 - ci % 4) * 8 + quant5 p.alpha % 32])
                      (some ((ci % 32 - ci % 4) * 8 + quant5 p.alpha % 32)) (by omega)
                · simp only [if_neg halpha]
                  cases hrev : revLookupPal pal p with
                  | none => rfl
                  | some ci =>
                    simp only []
                    exact ih copt img W li (pixel_ix + 1) offset (ct_pixels + 1)
                      (padding_complete || decide (p ≠ transparency))
                      (outbuf ++ [6 * 32 + ci % 32]) lastBody (by omega)
              | none =>
                simp only []
                by_cases halpha : p.alpha < 255
                · simp only [if_pos halpha]
                  cases hla : look_ahead_matching none img W li p pixel_ix true 0 with
                  | none => rfl
                  | some la =>
                    simp only []
                    have hla22 : la ≤ 22 := (look_ahead_matching_le _ _ _ _ _ _ _ _ hla).2 rfl
                    by_cases hrun1 : la + 1 = 1
                    · simp only [if_pos hrun1]
                      by_cases hbody : 0xFFFF < pixelBody p
                      · simp only [if_pos hbody]
                      · simp only [if_neg hbody]
                        exact ih copt img W li (pixel_ix + 1) offset (ct_pixels + 1)
                          (padding_complete || decide (p ≠ transparency))
                          (outbuf ++ [4 * 32 + quant5 p.alpha % 32, pixelBody p % 256,
                            pixelBody p / 256]) (some (pixelBody p)) (by omega)
                    · simp only [if_neg hrun1]
                      by_cases hbody : 0xFFFF < pixelBody p ∨ 0xFF < quant5 p.alpha
                      · simp only [if_pos hbody]
                      · simp only [if_neg hbody]
                        rw [Nat.mod_eq_of_lt (show la + 1 < 32 by omega)]
                        exact ih copt img W li (pixel_ix + (la + 1)) offset
                          (ct_pixels + (la + 1))
                          (padding_complete || decide (p ≠ transparency))
                          (outbuf ++ [3 * 32 + (la + 1), quant5 p.alpha, pixelBody p % 256,
                            pixelBody p / 256]) (some (pixelBody p)) (by omega)
                · simp only [if_neg halpha]
                  cases hla : look_ahead_matching copt img W li p pixel_ix false 0 with
                  | none => rfl
                  | some m =>
                    simp only []
                    have hm23 : m ≤ 23 := (look_ahead_matching_le _ _ _ _ _ _ _ _ hla).1
                    by_cases hm : m ≠ 0
                    · simp only [dif_pos hm]
                      by_cases hbody : 0xFFFF < pixelBody p
                      · simp only [if_pos hbody]
                      · simp only [if_neg hbody]
                        rw [Nat.mod_eq_of_lt (show m + 1 < 32 by omega)]
                        exact ih copt img W li (pixel_ix + (m + 1)) offset (ct_pixels + (m + 1))
                          (padding_complete || decide (p ≠ transparency))
                          (outbuf ++ [1 * 32 + (m + 1), pixelBody p % 256, pixelBody p / 256])
                          (some (pixelBody p)) (by omega)
                    · simp only [dif_neg hm]
                      cases hnmv : look_ahead_non_matching copt img W li pixel_ix with
                      | none => rfl
                      | some nm =>
                        simp only []
                        have hnm31 : nm ≤ 31 := look_ahead_non_matching_le _ _ _ _ _ _ hnmv
                        by_cases hnm : nm ≠ 0
                        · simp only [dif_pos hnm]
                          cases hlit : literalBytes img W li pixel_ix 0 nm with
                          | none => rfl
                          | some bs =>
                            cases hlast : img[li * W + pixel_ix + (nm - 1)]? with
                            | none => rfl
                            | some lastq =>
                              simp only []
                              rw [Nat.mod_eq_of_lt (show nm < 32 by omega)]
                              exact ih copt img W li (pixel_ix + nm) offset (ct_pixels + nm)
                                (padding_complete || decide (p ≠ transparency))
                                (outbuf ++ (2 * 32 + nm) :: bs) (some (pixelBody lastq))
                                (by omega)
                        · simp only [dif_neg hnm]
                          cases lastBody with
                          | none => rfl
                          | some bv =>
                            simp only []
                            by_cases hbv : 0xFFFF < bv
                            · simp only [if_pos hbv]
                            · simp only [if_neg hbv]
                              exact ih copt img W li (pixel_ix + 1) offset (ct_pixels + 1)
                                (padding_complete || decide (p ≠ transparency))
                                (outbuf ++ [0b01000001, bv % 256, bv / 256]) (some bv)
                                (by omega)

/-- C10: the matching look-ahead returns at most 23 (at most 22 when
translucent), the non-matching look-ahead returns at most 31, and
consequently the encoder loop is indistinguishable from its twin that
omits the `run_length == 31` transparent scan-ahead branch and applies no
`& 0b11111` mask to the run-length fields of flags 000, 001, 010, 011 and
101: every emitted run length is written exactly. -/
theorem look_ahead_bounds_and_no_truncation :
    (∀ (copt : Option (Nat × List (Nat × Pixel))) (img : List Pixel) (W li : Nat)
      (p : Pixel) (pixel_ix : Nat) (translucent : Bool),
      (look_ahead_matching copt img W li p pixel_ix translucent 0).getD 0 ≤ 23) ∧
    (∀ (copt : Option (Nat × List (Nat × Pixel))) (img : List Pixel) (W li : Nat)
      (p : Pixel) (pixel_ix : Nat),
      (look_ahead_matching copt img W li p pixel_ix true 0).getD 0 ≤ 22) ∧
    (∀ (copt : Option (Nat × List (Nat × Pixel))) (img : List Pixel) (W li pixel_ix : Nat),
      (look_ahead_non_matching copt img W li pixel_ix).getD 0 ≤ 31) ∧
    (∀ (copt : Option (Nat × List (Nat × Pixel))) (img : List Pixel)
      (W li pixel_ix offset ct_pixels : Nat) (padding_complete : Bool)
      (outbuf : List Nat) (lastBody : Option Nat),
      encodeLineLoop copt img W li pixel_ix offset ct_pixels padding_complete outbuf
          lastBody =
        encodeLineLoopPlain copt img W li pixel_ix offset ct_pixels padding_complete outbuf
          lastBody) := by
  refine ⟨?_, ?_, ?_, ?_⟩
  · intro copt img W li p pixel_ix translucent
    cases hla : look_ahead_matching copt img W li p pixel_ix translucent 0 with
    | none => simp
    | some r => simpa using (look_ahead_matching_le _ _ _ _ _ _ _ _ hla).1
  · intro copt img W li p pixel_ix
    cases hla : look_ahead_matching copt img W li p pixel_ix true 0 with
    | none => simp
    | some r => simpa using (look_ahead_matching_le _ _ _ _ _ _ _ _ hla).2 rfl
  · intro copt img W li pixel_ix
    cases hnm : look_ahead_non_matching copt img W li pixel_ix with
    | none => simp
    | some r => simpa using look_ahead_non_matching_le _ _ _ _ _ _ hnm
  · intro copt img W li pixel_ix offset ct_pixels padding_complete outbuf lastBody
    exact encodeLineLoop_eq_plain_aux (W - pixel_ix) copt img W li pixel_ix offset ct_pixels
      padding_complete outbuf lastBody (by omega)

/-- RGB565- and 5-bit-alpha-representable pixel: byte-valued channels that
survive quantization exactly. -/
def Rep565 (p : Pixel) : Prop :=
  p.red ≤ 255 ∧ p.green ≤ 255 ∧ p.blue ≤ 255 ∧ p.alpha ≤ 255 ∧
  expand5 (quant5 p.red) = p.red ∧ expand6 (quant6 p.green) = p.green ∧
  expand5 (quant5 p.blue) = p.blue ∧ expand5 (quant5 p.alpha) = p.alpha

instance (p : Pixel) : Decidable (Rep565 p) := by unfold Rep565; infer_instance

/-- The representable set of the round-trip claims: the transparent
sentinel, the shadow sentinel, or a pixel with 5-bit-expandable alpha and
RGB565-representable channels. -/
def Representable (p : Pixel) : Prop :=
  p = transparency ∨ p = shadow ∨ Rep565 p

instance (p : Pixel) : Decidable (Representable p) := by
  unfold Representable; infer_instance

lemma rep565_of_representable {p : Pixel} (hrep : Representable p)
    (h1 : p ≠ transparency) (h2 : p ≠ shadow) : Rep565 p := by
  rcases hrep with h | h | h
  · exact absurd h h1
  · exact absurd h h2
  · exact h

lemma pixelBody_le {p : Pixel} (hr : p.red ≤ 255) (hg : p.green ≤ 255)
    (hb : p.blue ≤ 255) : pixelBody p ≤ 0xFFFF := by
  have h1 := quant5_le p.red hr
  have h2 := quant6_le p.green hg
  have h3 := quant5_le p.blue hb
  unfold pixelBody
  omega

lemma from_int_pixelBody {p : Pixel} (hr : p.red ≤ 255) (hg : p.green ≤ 255)
    (hb : p.blue ≤ 255) :
    Pixel.from_int (pixelBody p) =
      ⟨expand5 (quant5 p.red), expand6 (quant6 p.green), expand5 (quant5 p.blue), 255⟩ := by
  have h1 := quant5_le p.red hr
  have h2 := quant6_le p.green hg
  have h3 := quant5_le p.blue hb
  unfold Pixel.from_int pixelBody
  have e1 : (quant5 p.red * 2048 + quant6 p.green * 32 + quant5 p.blue) / 2048 % 32 =
      quant5 p.red := by omega
  have e2 : (quant5 p.red * 2048 + quant6 p.green * 32 + quant5 p.blue) / 32 % 64 =
      quant6 p.green := by omega
  have e3 : (quant5 p.red * 2048 + quant6 p.green * 32 + quant5 p.blue) % 32 =
      quant5 p.blue := by omega
  rw [e1, e2, e3]

lemma from_int_rep {p : Pixel} (h : Rep565 p) :
    Pixel.from_int (pixelBody p) = maxAlpha p := by
  obtain ⟨hr, hg, hb, ha, er, eg, eb, ea⟩ := h
  rw [from_int_pixelBody hr hg hb]
  unfold maxAlpha
  rw [er, eg, eb]

lemma from_int_rep_full {p : Pixel} (h : Rep565 p) (ha : p.alpha = 255) :
    Pixel.from_int (pixelBody p) = p := by
  rw [from_int_rep h]
  obtain ⟨r, g, b, a⟩ := p
  simp [maxAlpha] at ha ⊢
  omega

lemma reconstruct_translucent {p : Pixel} (h : Rep565 p) :
    { Pixel.from_int (pixelBody p) with alpha := expand5 (quant5 p.alpha % 32) } = p := by
  have ha31 : quant5 p.alpha ≤ 31 := quant5_le p.alpha h.2.2.2.1
  rw [from_int_rep h, Nat.mod_eq_of_lt (by omega)]
  obtain ⟨r, g, b, a⟩ := p
  obtain ⟨hr, hg, hb, ha, er, eg, eb, ea⟩ := h
  simp [maxAlpha] at ea ⊢
  exact ea

lemma readRun_alpha : ∀ (k : Nat) (bytes : List Nat) (ps : List Pixel),
    readRun k bytes = some ps → ∀ q ∈ ps, q.alpha = 255 := by
  intro k
  induction k with
  | zero =>
      intro bytes ps h q hq
      simp [readRun] at h
      subst h
      cases hq
  | succ n ih =>
      intro bytes ps h q hq
      match bytes with
      | [] => simp [readRun] at h
      | [b] => simp [readRun] at h
      | b0 :: b1 :: rest =>
          simp [readRun] at h
          obtain ⟨tl, htl, rfl⟩ := h
          rcases List.mem_cons.mp hq with hq | hq
          · rw [hq]; rfl
          · exact ih rest tl htl q hq

lemma lookupPal_isSome_of_mem {pal : List (Nat × Pixel)} {ci : Nat} {v : Pixel}
    (hmem : (ci, v) ∈ pal) : (lookupPal pal ci).isSome := by
  unfold lookupPal
  cases hf : pal.find? (fun e => e.1 == ci) with
  | none =>
      exfalso
      have := List.find?_eq_none.mp hf (ci, v) hmem
      simp at this
  | some e => simp [hf]

lemma revLookupPal_mem {pal : List (Nat × Pixel)} {v : Pixel} {ci : Nat}
    (h : revLookupPal pal v = some ci) : ∃ e, e ∈ pal ∧ e.1 = ci ∧ e.2 = v := by
  unfold revLookupPal at h
  cases hf : pal.find? (fun e => e.2 == v) with
  | none => rw [hf] at h; cases h
  | some e =>
      rw [hf] at h
      simp at h
      refine ⟨e, List.mem_of_find?_eq_some hf, h, ?_⟩
      have := List.find?_some hf
      simpa using this

/-- Walk an opcode stream exactly like `decodeOps` and check that no
flag-001, 010, 011 or 100 opcode decodes to a sentinel pixel. -/
def literalOpsSentinelFree (pal : List (Nat × Pixel)) (fuel : Nat) (bytes : List Nat) :
    Bool :=
  if fuel = 0 then true
  else
    match bytes with
    | [] => true
    | h :: rest =>
        match decodeOp pal h rest with
        | none => false
        | some (ps, k) =>
            ((if h / 32 = 1 ∨ h / 32 = 2 ∨ h / 32 = 3 ∨ h / 32 = 4 then
                ps.all (fun q => !(q == transparency) && !(q == shadow))
              else true) &&
              literalOpsSentinelFree pal (fuel - 1 - k) (rest.drop k))
termination_by fuel
decreasing_by omega

lemma decodeOps_cons (pal : List (Nat × Pixel)) (h : Nat) (t rest : List Nat)
    (ps : List Pixel) (m : Nat) (tl : List Pixel)
    (hop : decodeOp pal h (t ++ rest) = some (ps, t.length))
    (hrest : decodeOps pal m rest = some tl) :
    decodeOps pal (1 + t.length + m) ((h :: t) ++ rest) = some (ps ++ tl) := by
  unfold decodeOps
  rw [if_neg (by omega)]
  simp only [List.cons_append]
  rw [hop]
  simp only []
  have harith : 1 + t.length + m - 1 - t.length = m := by omega
  rw [harith, List.drop_left, hrest]

lemma lsf_cons (pal : List (Nat × Pixel)) (h : Nat) (t rest : List Nat)
    (ps : List Pixel) (m : Nat)
    (hop : decodeOp pal h (t ++ rest) = some (ps, t.length))
    (hck : h / 32 = 1 ∨ h / 32 = 2 ∨ h / 32 = 3 ∨ h / 32 = 4 →
      ∀ q ∈ ps, q ≠ transparency ∧ q ≠ shadow)
    (hrest : literalOpsSentinelFree pal m rest = true) :
    literalOpsSentinelFree pal (1 + t.length + m) ((h :: t) ++ rest) = true := by
  unfold literalOpsSentinelFree
  rw [if_neg (by omega)]
  simp only [List.cons_append]
  rw [hop]
  simp only []
  have harith : 1 + t.length + m - 1 - t.length = m := by omega
  rw [harith, List.drop_left, hrest]
  simp only [Bool.and_true]
  by_cases hflag : h / 32 = 1 ∨ h / 32 = 2 ∨ h / 32 = 3 ∨ h / 32 = 4
  · rw [if_pos hflag]
    rw [List.all_eq_true]
    intro q hq
    obtain ⟨h1, h2⟩ := hck hflag q hq
    simp [h1, h2]
  · rw [if_neg hflag]

lemma literalBytes_decode (img : List Pixel) (W li pix : Nat) :
    ∀ (count i : Nat) (bs : List Nat),
    literalBytes img W li pix i count = some bs →
    bs.length = 2 * count ∧
    ∀ rest, ∃ ps, readRun count (bs ++ rest) = some ps ∧ ps.length = count ∧
      ∀ j, j < count → ∃ q, img[li * W + pix + (i + j)]? = some q ∧
        ps[j]? = some (Pixel.from_int (pixelBody q)) := by
  intro count
  induction count with
  | zero =>
      intro i bs hlb
      simp [literalBytes] at hlb
      subst hlb
      exact ⟨rfl, fun rest => ⟨[], by simp [readRun], rfl, by omega⟩⟩
  | succ k ih =>
      intro i bs hlb
      unfold literalBytes at hlb
      cases himg : img[li * W + pix + i]? with
      | none => rw [himg] at hlb; cases hlb
      | some q =>
          rw [himg] at hlb
          simp only [] at hlb
          by_cases hbody : 0xFFFF < pixelBody q
          · rw [if_pos hbody] at hlb; cases hlb
          · rw [if_neg hbody] at hlb
            cases htl : literalBytes img W li pix (i + 1) k with
            | none => rw [htl] at hlb; cases hlb
            | some tl =>
                rw [htl] at hlb
                simp only [Option.map_some'] at hlb
                obtain ⟨hlen, hrun⟩ := ih (i + 1) tl htl
                have hbs : bs = pixelBody q % 256 :: pixelBody q / 256 :: tl := by
                  exact (Option.some.inj hlb).symm
                subst hbs
                refine ⟨by simp only [List.length_cons, hlen]; omega, ?_⟩
                intro rest
                obtain ⟨ps', hps', hpslen, hidx⟩ := hrun rest
                refine ⟨Pixel.from_int (pixelBody q) :: ps', ?_, by simp [hpslen], ?_⟩
                · unfold readRun
                  simp only [List.cons_append]
                  rw [hps']
                  have : pixelBody q % 256 + 256 * (pixelBody q / 256) = pixelBody q := by
                    omega
                  rw [this]
                  rfl
                · intro j hj
                  cases j with
                  | zero =>
                      refine ⟨q, ?_, by simp⟩
                      simpa using himg
                  | succ j' =>
                      obtain ⟨q', hq', hps⟩ := hidx j' (by omega)
                      refine ⟨q', ?_, ?_⟩
                      · have : i + 1 + j' = i + (j' + 1) := by omega
                        rw [this] at hq'
                        exact hq'
                      · simpa using hps

lemma decodeOp_flag000 (pal : List (Nat × Pixel)) (run : Nat) (hrun : run ≤ 31)
    (rest : List Nat) :
    decodeOp pal run rest = some (List.replicate run transparency, 0) := by
  unfold decodeOp
  have h0 : run / 32 = 0 := by omega
  have h1 : run % 32 = run := by omega
  simp only [h0, h1]
  norm_num

lemma decodeOp_flag101 (pal : List (Nat × Pixel)) (run : Nat) (hrun : run ≤ 31)
    (rest : List Nat) :
    decodeOp pal (5 * 32 + run) rest = some (List.replicate run shadow, 0) := by
  unfold decodeOp
  have h0 : (5 * 32 + run) / 32 = 5 := by omega
  have h1 : (5 * 32 + run) % 32 = run := by omega
  simp only [h0, h1]
  norm_num

lemma decodeOp_flag001 (pal : List (Nat × Pixel)) (run body : Nat) (hrun : run ≤ 31)
    (rest : List Nat) :
    decodeOp pal (1 * 32 + run) ([body % 256, body / 256] ++ rest) =
      some (List.replicate run (Pixel.from_int body), 2) := by
  unfold decodeOp
  have h0 : (1 * 32 + run) / 32 = 1 := by omega
  have h1 : (1 * 32 + run) % 32 = run := by omega
  have hb : body % 256 + 256 * (body / 256) = body := by omega
  simp only [h0, h1, List.cons_append, List.nil_append]
  norm_num
  rw [hb]
  simp

lemma decodeOp_flag011 (pal : List (Nat × Pixel)) (run a body : Nat) (hrun : run ≤ 31)
    (rest : List Nat) :
    decodeOp pal (3 * 32 + run) ([a, body % 256, body / 256] ++ rest) =
      some (List.replicate run
        { Pixel.from_int body with alpha := expand5 (a % 32) }, 3) := by
  unfold decodeOp
  have h0 : (3 * 32 + run) / 32 = 3 := by omega
  have h1 : (3 * 32 + run) % 32 = run := by omega
  have hb : body % 256 + 256 * (body / 256) = body := by omega
  simp only [h0, h1, List.cons_append, List.nil_append]
  norm_num
  rw [hb]
  simp

lemma decodeOp_flag100 (pal : List (Nat × Pixel)) (a body : Nat) (ha : a ≤ 31)
    (rest : List Nat) :
    decodeOp pal (4 * 32 + a) ([body % 256, body / 256] ++ rest) =
      some ([{ Pixel.from_int body with alpha := expand5 a }], 2) := by
  unfold decodeOp
  have h0 : (4 * 32 + a) / 32 = 4 := by omega
  have h1 : (4 * 32 + a) % 32 = a := by omega
  have hb : body % 256 + 256 * (body / 256) = body := by omega
  simp only [h0, h1, List.cons_append, List.nil_append]
  norm_num
  rw [hb]
  simp

lemma decodeOp_flag110 (pal : List (Nat × Pixel)) (ci : Nat) (v : Pixel) (hci : ci ≤ 31)
    (hlook : lookupPal pal ci = some v) (rest : List Nat) :
    decodeOp pal (6 * 32 + ci) rest = some ([v], 0) := by
  unfold decodeOp
  have h0 : (6 * 32 + ci) / 32 = 6 := by omega
  have h1 : (6 * 32 + ci) % 32 = ci := by omega
  simp only [h0, h1]
  norm_num
  rw [hlook]

lemma decodeOp_flag111_single (pal : List (Nat × Pixel)) (ci a : Nat) (v : Pixel)
    (hci : ci ≤ 31) (ha : a ≤ 31) (hlook : lookupPal pal ci = some v)
    (rest : List Nat) :
    decodeOp pal (7 * 32 + 28 + ci % 4) (((ci % 32 - ci % 4) * 8 + a) :: rest) =
      some ([{ v with alpha := expand5 a }], 1) := by
  unfold decodeOp
  have h0 : (7 * 32 + 28 + ci % 4) / 32 = 7 := by omega
  have h1 : (7 * 32 + 28 + ci % 4) % 32 = 28 + ci % 4 := by omega
  have h27 : 27 < 28 + ci % 4 := by omega
  simp only [h0, h1, if_pos h27]
  norm_num
  have hidx : ((ci % 32 - ci % 4) * 8 + a) / 8 % 32 / 4 * 4 + (28 + ci) % 4 = ci := by
    omega
  have halpha : ((ci % 32 - ci % 4) * 8 + a) % 32 = a := by omega
  rw [hidx, halpha, hlook]
  exact ⟨v, rfl, rfl, rfl, rfl, rfl⟩

lemma decodeOp_flag010 (pal : List (Nat × Pixel)) (nm : Nat) (bs rest : List Nat)
    (ps : List Pixel) (hnm : nm ≤ 31) (hlen : bs.length = 2 * nm)
    (hrun : readRun nm (bs ++ rest) = some ps) :
    decodeOp pal (2 * 32 + nm) (bs ++ rest) = some (ps, 2 * nm) := by
  unfold decodeOp
  have h0 : (2 * 32 + nm) / 32 = 2 := by omega
  have h1 : (2 * 32 + nm) % 32 = nm := by omega
  simp only [h0, h1]
  norm_num
  rw [hrun]

lemma not_sentinel_of_alpha {q : Pixel} (h255 : q.alpha = 255) :
    q ≠ transparency ∧ q ≠ shadow := by
  constructor
  · intro he; rw [he] at h255; exact absurd h255 (by decide)
  · intro he; rw [he] at h255; exact absurd h255 (by decide)

lemma lsf_step (pal : List (Nat × Pixel)) (h : Nat) (t Δ rest : List Nat)
    (ps : List Pixel) (m : Nat)
    (hop : decodeOp pal h (t ++ (Δ ++ rest)) = some (ps, t.length))
    (hck : h / 32 = 1 ∨ h / 32 = 2 ∨ h / 32 = 3 ∨ h / 32 = 4 →
      ∀ q ∈ ps, q ≠ transparency ∧ q ≠ shadow)
    (hrest : literalOpsSentinelFree pal (Δ.length + m) (Δ ++ rest) = true) :
    literalOpsSentinelFree pal (((h :: t) ++ Δ).length + m) (((h :: t) ++ Δ) ++ rest) =
      true := by
  have hlen : ((h :: t) ++ Δ).length + m = 1 + t.length + (Δ.length + m) := by
    simp [List.length_append]
    omega
  rw [hlen, List.append_assoc]
  exact lsf_cons pal h t (Δ ++ rest) ps (Δ.length + m) hop hck hrest

lemma encodeLineLoop_lsf_aux (pal : List (Nat × Pixel)) :
    ∀ (n : Nat) (copt : Option (Nat × List (Nat × Pixel))) (img : List Pixel)
      (W li pix off ct : Nat) (pad : Bool) (buf : List Nat) (lb : Option Nat)
      (bufF : List Nat) (ctF offF : Nat),
      W - pix ≤ n →
      (∀ p ∈ img, Representable p) →
      (∀ c pl, copt = some (c, pl) → pl = pal ∧ ∀ e ∈ pl, e.1 ≤ 31) →
      encodeLineLoop copt img W li pix off ct pad buf lb = some (bufF, ctF, offF) →
      ∃ Δ, bufF = buf ++ Δ ∧
        ∀ m rest, literalOpsSentinelFree pal m rest = true →
          literalOpsSentinelFree pal (Δ.length + m) (Δ ++ rest) = true := by
  intro n
  induction n with
  | zero =>
      intro copt img W li pix off ct pad buf lb bufF ctF offF hn hrep hcopt hsome
      have hW : W ≤ pix := by omega
      unfold encodeLineLoop at hsome
      rw [dif_pos hW] at hsome
      simp only [Option.some.injEq, Prod.mk.injEq] at hsome
      obtain ⟨hbuf, _, _⟩ := hsome
      exact ⟨[], by simp [← hbuf], fun m rest hrest => by simpa using hrest⟩
  | succ f ih =>
      intro copt img W li pix off ct pad buf lb bufF ctF offF hn hrep hcopt hsome
      by_cases hW : W ≤ pix
      · unfold encodeLineLoop at hsome
        rw [dif_pos hW] at hsome
        simp only [Option.some.injEq, Prod.mk.injEq] at hsome
        obtain ⟨hbuf, _, _⟩ := hsome
        exact ⟨[], by simp [← hbuf], fun m rest hrest => by simpa using hrest⟩
      · unfold encodeLineLoop at hsome
        rw [dif_neg hW] at hsome
        cases himg : img[li * W + pix]? with
        | none => rw [himg] at hsome; cases hsome
        | some p =>
          rw [himg] at hsome
          simp only [] at hsome
          have hpmem : p ∈ img := by
            obtain ⟨hlt, hget⟩ := List.getElem?_eq_some.mp himg
            exact hget ▸ List.getElem_mem hlt
          have hprep : Representable p := hrep p hpmem
          by_cases htr : p = transparency
          · rw [if_pos htr] at hsome
            cases hla : look_ahead_matching none img W li p pix false 0 with
            | none => rw [hla] at hsome; cases hsome
            | some la =>
              rw [hla] at hsome
              simp only [] at hsome
              have hla23 : la ≤ 23 := (look_ahead_matching_le _ _ _ _ _ _ _ _ hla).1
              by_cases hpad : (pad || decide (p ≠ transparency)) = false
              · rw [if_pos hpad] at hsome
                exact ih copt img W li (pix + (la + 1)) (off + (la + 1)) ct _ buf lb bufF
                  ctF offF (by omega) hrep hcopt hsome
              · rw [if_neg hpad] at hsome
                by_cases hend : W ≤ pix + (la + 1)
                · rw [if_pos hend] at hsome
                  simp only [Option.some.injEq, Prod.mk.injEq] at hsome
                  obtain ⟨hbuf, _, _⟩ := hsome
                  exact ⟨[], by simp [← hbuf], fun m rest hrest => by simpa using hrest⟩
                · rw [if_neg hend] at hsome
                  by_cases h31 : la + 1 = 31
                  · rw [if_pos h31] at hsome
                    cases hscan : scan_ahead img W li pix (la + 1) none with
                    | none => rw [hscan] at hsome; cases hsome
                    | some collected =>
                      rw [hscan] at hsome
                      simp only [] at hsome
                      by_cases hcend : W ≤ pix + collected
                      · rw [if_pos hcend] at hsome
                        simp only [Option.some.injEq, Prod.mk.injEq] at hsome
                        obtain ⟨hbuf, _, _⟩ := hsome
                        exact ⟨[], by simp [← hbuf],
                          fun m rest hrest => by simpa using hrest⟩
                      · rw [if_neg hcend] at hsome
                        obtain ⟨Δ, hb, hcomp⟩ := ih copt img W li (pix + (la + 1)) off
                          (ct + (la + 1)) _ (buf ++ [(la + 1) % 32]) lb bufF ctF offF
                          (by omega) hrep hcopt hsome
                        refine ⟨(la + 1) % 32 :: Δ, by rw [hb]; simp, ?_⟩
                        intro m rest hrest
                        have hop := decodeOp_flag000 pal ((la + 1) % 32) (by omega)
                          (Δ ++ rest)
                        have := lsf_step pal ((la + 1) % 32) [] Δ rest _ m
                          (by simpa using hop) (fun hf => absurd hf (by omega))
                          (hcomp m rest hrest)
                        simpa using this
                  · rw [if_neg h31] at hsome
                    obtain ⟨Δ, hb, hcomp⟩ := ih copt img W li (pix + (la + 1)) off
                      (ct + (la + 1)) _ (buf ++ [(la + 1) % 32]) lb bufF ctF offF
                      (by omega) hrep hcopt hsome
                    refine ⟨(la + 1) % 32 :: Δ, by rw [hb]; simp, ?_⟩
                    intro m rest hrest
                    have hop := decodeOp_flag000 pal ((la + 1) % 32) (by omega) (Δ ++ rest)
                    have := lsf_step pal ((la + 1) % 32) [] Δ rest _ m
                      (by simpa using hop) (fun hf => absurd hf (by omega))
                      (hcomp m rest hrest)
                    simpa using this
          · rw [if_neg htr] at hsome
            by_cases hsh : p = shadow
            · rw [if_pos hsh] at hsome
              cases hla : look_ahead_matching none img W li p pix false 0 with
              | none => rw [hla] at hsome; cases hsome
              | some la =>
                rw [hla] at hsome
                simp only [] at hsome
                have hla23 : la ≤ 23 := (look_ahead_matching_le _ _ _ _ _ _ _ _ hla).1
                obtain ⟨Δ, hb, hcomp⟩ := ih copt img W li (pix + (la + 1)) off
                  (ct + (la + 1)) _ (buf ++ [5 * 32 + (la + 1) % 32]) lb bufF ctF offF
                  (by omega) hrep hcopt hsome
                refine ⟨(5 * 32 + (la + 1) % 32) :: Δ, by rw [hb]; simp, ?_⟩
                intro m rest hrest
                have hop := decodeOp_flag101 pal ((la + 1) % 32) (by omega) (Δ ++ rest)
                have := lsf_step pal (5 * 32 + (la + 1) % 32) [] Δ rest _ m
                  (by simpa using hop) (fun hf => absurd hf (by omega))
                  (hcomp m rest hrest)
                simpa using this
            · rw [if_neg hsh] at hsome
              cases hpm : (match copt with
                | some (c, pal') =>
                    if (palValues pal').contains (maxAlpha p) then some (c, pal') else none
                | none => none) with
              | some cp =>
                rw [hpm] at hsome
                obtain ⟨c, pal'⟩ := cp
                have hcopteq : copt = some (c, pal') := by
                  cases copt with
                  | none => exact absurd hpm (by simp)
                  | some q =>
                      obtain ⟨c', pl'⟩ := q
                      simp only [] at hpm
                      by_cases hq : (palValues pl').contains (maxAlpha p)
                      · rw [if_pos hq] at hpm
                        exact hpm
                      · rw [if_neg hq] at hpm; cases hpm
                have hpk := hcopt c pal' hcopteq
                rw [hpk.1] at hsome
                have hkeys : ∀ e ∈ pal, e.1 ≤ 31 := hpk.1 ▸ hpk.2
                simp only [] at hsome
                by_cases halpha : p.alpha < 255
                · rw [if_pos halpha] at hsome
                  cases hrev : revLookupPal pal (maxAlpha p) with
                  | none => rw [hrev] at hsome; cases hsome
                  | some ci =>
                    rw [hrev] at hsome
                    simp only [] at hsome
                    obtain ⟨e, hemem, he1, he2⟩ := revLookupPal_mem hrev
                    have hci : ci ≤ 31 := he1 ▸ hkeys e hemem
                    have hciv : (ci, e.2) ∈ pal := by
                      rw [← he1]
                      exact hemem
                    obtain ⟨v, hv⟩ := Option.isSome_iff_exists.mp
                      (lookupPal_isSome_of_mem hciv)
                    obtain ⟨Δ, hb, hcomp⟩ := ih copt img W li (pix + 1) off (ct + 1) _
                      (buf ++ [7 * 32 + 28 + ci % 4,
                        (ci % 32 - ci % 4) * 8 + quant5 p.alpha % 32])
                      (some ((ci % 32 - ci % 4) * 8 + quant5 p.alpha % 32)) bufF ctF offF
                      (by omega) hrep hcopt hsome
                    refine ⟨(7 * 32 + 28 + ci % 4) ::
                      ((ci % 32 - ci % 4) * 8 + quant5 p.alpha % 32) :: Δ,
                      by rw [hb]; simp, ?_⟩
                    intro m rest hrest
                    have hop := decodeOp_flag111_single pal ci (quant5 p.alpha % 32) v hci
                      (by omega) hv (Δ ++ rest)
                    have := lsf_step pal (7 * 32 + 28 + ci % 4)
                      [(ci % 32 - ci % 4) * 8 + quant5 p.alpha % 32] Δ rest _ m
                      (by simpa using hop) (fun hf => absurd hf (by omega))
                      (hcomp m rest hrest)
                    simpa using this
                · rw [if_neg halpha] at hsome
                  cases hrev : revLookupPal pal p with
                  | none => rw [hrev] at hsome; cases hsome
                  | some ci =>
                    rw [hrev] at hsome
                    simp only [] at hsome
                    obtain ⟨e, hemem, he1, he2⟩ := revLookupPal_mem hrev
                    have hci : ci ≤ 31 := he1 ▸ hkeys e hemem
                    have hciv : (ci, e.2) ∈ pal := by
                      rw [← he1]
                      exact hemem
                    obtain ⟨v, hv⟩ := Option.isSome_iff_exists.mp
                      (lookupPal_isSome_of_mem hciv)
                    obtain ⟨Δ, hb, hcomp⟩ := ih copt img W li (pix + 1) off (ct + 1) _
                      (buf ++ [6 * 32 + ci % 32]) lb bufF ctF offF
                      (by omega) hrep hcopt hsome
                    refine ⟨(6 * 32 + ci % 32) :: Δ, by rw [hb]; simp, ?_⟩
                    intro m rest hrest
                    have hci32 : ci % 32 = ci := by omega
                    have hop := decodeOp_flag110 pal ci v hci hv (Δ ++ rest)
                    have := lsf_step pal (6 * 32 + ci % 32) [] Δ rest _ m
                      (by rw [hci32]; simpa using hop) (fun hf => absurd hf (by omega))
                      (hcomp m rest hrest)
                    simpa using this
              | none =>
                rw [hpm] at hsome
                simp only [] at hsome
                have hrp : Rep565 p := rep565_of_representable hprep htr hsh
                by_cases halpha : p.alpha < 255
                · rw [if_pos halpha] at hsome
                  cases hla : look_ahead_matching none img W li p pix true 0 with
                  | none => rw [hla] at hsome; cases hsome
                  | some la =>
                    rw [hla] at hsome
                    simp only [] at hsome
                    have hla22 : la ≤ 22 :=
                      (look_ahead_matching_le _ _ _ _ _ _ _ _ hla).2 rfl
                    have ha31 : quant5 p.alpha ≤ 31 := quant5_le p.alpha hrp.2.2.2.1
                    have hbody : pixelBody p ≤ 0xFFFF :=
                      pixelBody_le hrp.1 hrp.2.1 hrp.2.2.1
                    by_cases hrun1 : la + 1 = 1
                    · rw [if_pos hrun1] at hsome
                      rw [if_neg (by omega)] at hsome
                      obtain ⟨Δ, hb, hcomp⟩ := ih copt img W li (pix + 1) off (ct + 1) _
                        (buf ++ [4 * 32 + quant5 p.alpha % 32, pixelBody p % 256,
                          pixelBody p / 256]) (some (pixelBody p)) bufF ctF offF
                        (by omega) hrep hcopt hsome
                      refine ⟨(4 * 32 + quant5 p.alpha % 32) :: pixelBody p % 256 ::
                        pixelBody p / 256 :: Δ, by rw [hb]; simp, ?_⟩
                      intro m rest hrest
                      have hop := decodeOp_flag100 pal (quant5 p.alpha % 32) (pixelBody p)
                        (by omega) (Δ ++ rest)
                      have hq : ({ Pixel.from_int (pixelBody p) with
                          alpha := expand5 (quant5 p.alpha % 32) } : Pixel) = p :=
                        reconstruct_translucent hrp
                      have := lsf_step pal (4 * 32 + quant5 p.alpha % 32)
                        [pixelBody p % 256, pixelBody p / 256] Δ rest _ m
                        (by simpa using hop)
                        (fun _ q hqm => by
                          rw [List.mem_singleton.mp hqm, hq]
                          exact ⟨htr, hsh⟩)
                        (hcomp m rest hrest)
                      simpa using this
                    · rw [if_neg hrun1] at hsome
                      rw [if_neg (by omega)] at hsome
                      obtain ⟨Δ, hb, hcomp⟩ := ih copt img W li (pix + (la + 1)) off
                        (ct + (la + 1)) _
                        (buf ++ [3 * 32 + (la + 1) % 32, quant5 p.alpha,
                          pixelBody p % 256, pixelBody p / 256]) (some (pixelBody p))
                        bufF ctF offF (by omega) hrep hcopt hsome
                      refine ⟨(3 * 32 + (la + 1) % 32) :: quant5 p.alpha ::
                        pixelBody p % 256 :: pixelBody p / 256 :: Δ,
                        by rw [hb]; simp, ?_⟩
                      intro m rest hrest
                      have hop := decodeOp_flag011 pal ((la + 1) % 32) (quant5 p.alpha)
                        (pixelBody p) (by omega) (Δ ++ rest)
                      have hq : ({ Pixel.from_int (pixelBody p) with
                          alpha := expand5 (quant5 p.alpha % 32) } : Pixel) = p :=
                        reconstruct_translucent hrp
                      have := lsf_step pal (3 * 32 + (la + 1) % 32)
                        [quant5 p.alpha, pixelBody p % 256, pixelBody p / 256] Δ rest _ m
                        (by simpa using hop)
                        (fun _ q hqm => by
                          rw [List.eq_of_mem_replicate hqm, hq]
                          exact ⟨htr, hsh⟩)
                        (hcomp m rest hrest)
                      simpa using this
                · rw [if_neg halpha] at hsome
                  cases hla : look_ahead_matching copt img W li p pix false 0 with
                  | none => rw [hla] at hsome; cases hsome
                  | some mm =>
                    rw [hla] at hsome
                    simp only [] at hsome
                    have hm23 : mm ≤ 23 := (look_ahead_matching_le _ _ _ _ _ _ _ _ hla).1
                    have hbody : pixelBody p ≤ 0xFFFF :=
                      pixelBody_le hrp.1 hrp.2.1 hrp.2.2.1
                    by_cases hm : mm ≠ 0
                    · rw [dif_pos hm] at hsome
                      rw [if_neg (by omega)] at hsome
                      obtain ⟨Δ, hb, hcomp⟩ := ih copt img W li (pix + (mm + 1)) off
                        (ct + (mm + 1)) _
                        (buf ++ [1 * 32 + (mm + 1) % 32, pixelBody p % 256,
                          pixelBody p / 256]) (some (pixelBody p)) bufF ctF offF
                        (by omega) hrep hcopt hsome
                      refine ⟨(1 * 32 + (mm + 1) % 32) :: pixelBody p % 256 ::
                        pixelBody p / 256 :: Δ, by rw [hb]; simp, ?_⟩
                      intro m rest hrest
                      have hop := decodeOp_flag001 pal ((mm + 1) % 32) (pixelBody p)
                        (by omega) (Δ ++ rest)
                      have := lsf_step pal (1 * 32 + (mm + 1) % 32)
                        [pixelBody p % 256, pixelBody p / 256] Δ rest _ m
                        (by simpa using hop)
                        (fun _ q hqm => by
                          rw [List.eq_of_mem_replicate hqm]
                          exact not_sentinel_of_alpha rfl)
                        (hcomp m rest hrest)
                      simpa using this
                    · rw [dif_neg hm] at hsome
                      cases hnmv : look_ahead_non_matching copt img W li pix with
                      | none => rw [hnmv] at hsome; cases hsome
                      | some nm =>
                        rw [hnmv] at hsome
                        simp only [] at hsome
                        have hnm31 : nm ≤ 31 :=
                          look_ahead_non_matching_le _ _ _ _ _ _ hnmv
                        by_cases hnm : nm ≠ 0
                        · rw [dif_pos hnm] at hsome
                          cases hlit : literalBytes img W li pix 0 nm with
                          | none => rw [hlit] at hsome; cases hsome
                          | some bs =>
                            rw [hlit] at hsome
                            cases hlast : img[li * W + pix + (nm - 1)]? with
                            | none => rw [hlast] at hsome; cases hsome
                            | some lastq =>
                              rw [hlast] at hsome
                              simp only [] at hsome
                              obtain ⟨hbslen, hrun⟩ :=
                                literalBytes_decode img W li pix nm 0 bs hlit
                              obtain ⟨Δ, hb, hcomp⟩ := ih copt img W li (pix + nm) off
                                (ct + nm) _ (buf ++ (2 * 32 + nm % 32) :: bs)
                                (some (pixelBody lastq)) bufF ctF offF
                                (by omega) hrep hcopt hsome
                              refine ⟨(2 * 32 + nm % 32) :: bs ++ Δ, by rw [hb]; simp, ?_⟩
                              intro m rest hrest
                              obtain ⟨ps, hps, hpslen, _⟩ := hrun (Δ ++ rest)
                              have hnm32 : nm % 32 = nm := by omega
                              have hop := decodeOp_flag010 pal nm bs (Δ ++ rest) ps hnm31
                                hbslen hps
                              have := lsf_step pal (2 * 32 + nm % 32) bs Δ rest ps m
                                (by rw [hnm32, hbslen]; exact hop)
                                (fun _ q hqm => not_sentinel_of_alpha
                                  (readRun_alpha nm (bs ++ (Δ ++ rest)) ps hps q hqm))
                                (hcomp m rest hrest)
                              simpa using this
                        · rw [dif_neg hnm] at hsome
                          cases lb with
                          | none => cases hsome
                          | some bv =>
                            simp only [] at hsome
                            by_cases hbv : 0xFFFF < bv
                            · rw [if_pos hbv] at hsome; cases hsome
                            · rw [if_neg hbv] at hsome
                              obtain ⟨Δ, hb, hcomp⟩ := ih copt img W li (pix + 1) off
                                (ct + 1) _ (buf ++ [0b01000001, bv % 256, bv / 256])
                                (some bv) bufF ctF offF (by omega) hrep hcopt hsome
                              refine ⟨(0b01000001 : Nat) :: bv % 256 :: bv / 256 :: Δ,
                                by rw [hb]; simp, ?_⟩
                              intro m rest hrest
                              have hrr : readRun 1 (([bv % 256, bv / 256] ++ (Δ ++ rest)))
                                  = some [Pixel.from_int (bv % 256 + 256 * (bv / 256))] := by
                                simp [readRun]
                              have hop := decodeOp_flag010 pal 1 [bv % 256, bv / 256]
                                (Δ ++ rest) [Pixel.from_int (bv % 256 + 256 * (bv / 256))]
                                (by omega) (by simp) hrr
                              have := lsf_step pal (2 * 32 + 1) [bv % 256, bv / 256] Δ
                                rest _ m (by simpa using hop)
                                (fun _ q hqm => by
                                  rw [List.mem_singleton.mp hqm]
                                  exact not_sentinel_of_alpha rfl)
                                (hcomp m rest hrest)
                              simpa using this

/-- C8 (amended): for every input row whose pixels lie in the representable
set, the opcode stream the encoder produces never decodes a flag-001,
flag-010, flag-011 or flag-100 payload to the transparent or shadow
sentinel: transparent pixels are expressed only through flag-000 opcodes,
the header offset, or tail omission, and shadow pixels only through
flag-101. -/
theorem encoder_stream_sentinel_free
    (copt : Option (Nat × List (Nat × Pixel))) (pal : List (Nat × Pixel))
    (hcopt : ∀ c pl, copt = some (c, pl) → pl = pal ∧ ∀ e ∈ pl, e.1 ≤ 31)
    (img : List Pixel) (hrep : ∀ p ∈ img, Representable p) (W li : Nat)
    (bufF : List Nat) (ctF offF : Nat)
    (henc : encodeLineLoop copt img W li 0 0 0 false [] none = some (bufF, ctF, offF)) :
    literalOpsSentinelFree pal bufF.length bufF = true := by
  obtain ⟨Δ, hb, hcomp⟩ := encodeLineLoop_lsf_aux pal W copt img W li 0 0 0 false [] none
    bufF ctF offF (by omega) hrep hcopt henc
  have hΔ : bufF = Δ := by simpa using hb
  have h0 : literalOpsSentinelFree pal 0 [] = true := by
    unfold literalOpsSentinelFree
    simp
  have := hcomp 0 [] h0
  rw [hΔ]
  simpa using this

/-- Counterexample to C8 as stated for arbitrary rows: the representable-set
restriction is necessary. The row [(0,0,0,3)] (alpha 3 is not 5-bit
expandable) encodes to the flag-100 opcode 0x80 0x00 0x00 whose decoded
pixel is exactly the transparent sentinel, which the checker rejects. -/
theorem sentinel_as_literal_body_counterexample :
    encodeLineLoop none [⟨0, 0, 0, 3⟩] 1 0 0 0 0 false [] none =
      some ([4 * 32, 0, 0], 1, 0) ∧
    literalOpsSentinelFree [] 3 [4 * 32, 0, 0] = false := by
  constructor
  · simp [encodeLineLoop, look_ahead_matching, paletteBreakTruthy, pixelBody,
      quant5, quant6, rnd, transparency, shadow, maxAlpha]
  · simp [literalOpsSentinelFree, decodeOp, Pixel.from_int, expand5, rnd,
      transparency, shadow]
    decide

/-- Witness for C8 on the single-red row with no active color. -/
theorem encoder_stream_sentinel_free_witness :
    ((∀ c pl, (none : Option (Nat × List (Nat × Pixel))) = some (c, pl) →
        pl = ([] : List (Nat × Pixel)) ∧ ∀ e ∈ pl, e.1 ≤ 31) ∧
      (∀ p ∈ [Pixel.mk 255 0 0 255], Representable p) ∧
      encodeLineLoop none [Pixel.mk 255 0 0 255] 1 0 0 0 0 false [] none =
        some ([2 * 32 + 1, 0, 248], 1, 0)) ∧
    literalOpsSentinelFree [] [2 * 32 + 1, 0, 248].length [2 * 32 + 1, 0, 248] = true := by
  have h1 : ∀ c pl, (none : Option (Nat × List (Nat × Pixel))) = some (c, pl) →
      pl = ([] : List (Nat × Pixel)) ∧ ∀ e ∈ pl, e.1 ≤ 31 := by
    intro c pl h
    cases h
  have h2 : ∀ p ∈ [Pixel.mk 255 0 0 255], Representable p := by decide
  have h3 : encodeLineLoop none [Pixel.mk 255 0 0 255] 1 0 0 0 0 false [] none =
      some ([2 * 32 + 1, 0, 248], 1, 0) := by
    simp [encodeLineLoop, look_ahead_matching, look_ahead_non_matching,
      look_ahead_nm_loop, paletteBreakTruthy, literalBytes, pixelBody, quant5, quant6,
      rnd, transparency, shadow, maxAlpha]
  exact ⟨⟨h1, h2, h3⟩,
    encoder_stream_sentinel_free none [] h1 [Pixel.mk 255 0 0 255] h2 1 0
      [2 * 32 + 1, 0, 248] 1 0 h3⟩

/-- Count of leading transparent pixels of a row (the encoder's `offset`). -/
def leadingTransparent : List Pixel → Nat
  | [] => 0
  | q :: t => if q = transparency then leadingTransparent t + 1 else 0

lemma leadingTransparent_le (row : List Pixel) : leadingTransparent row ≤ row.length := by
  induction row with
  | nil => simp [leadingTransparent]
  | cons q t ih =>
      unfold leadingTransparent
      by_cases hq : q = transparency
      · rw [if_pos hq]; simpa using ih
      · rw [if_neg hq]; simp

lemma leadingTransparent_lt (row : List Pixel) :
    ∀ j, j < leadingTransparent row → row[j]? = some transparency := by
  induction row with
  | nil => intro j hj; simp [leadingTransparent] at hj
  | cons q t ih =>
      intro j hj
      unfold leadingTransparent at hj
      by_cases hq : q = transparency
      · rw [if_pos hq] at hj
        cases j with
        | zero => simpa using hq
        | succ j' => simpa using ih j' (by omega)
      · rw [if_neg hq] at hj; omega

lemma leadingTransparent_stop (row : List Pixel)
    (hlt : leadingTransparent row < row.length) :
    row[leadingTransparent row]? ≠ some transparency := by
  induction row with
  | nil => simp at hlt
  | cons q t ih =>
      unfold leadingTransparent at hlt ⊢
      by_cases hq : q = transparency
      · rw [if_pos hq] at hlt ⊢
        simpa using ih (by simpa using hlt)
      · rw [if_neg hq] at hlt ⊢
        simpa using hq

lemma nodup_keys_entry_eq {pal : List (Nat × Pixel)}
    (hnd : (pal.map Prod.fst).Nodup) :
    ∀ e1 ∈ pal, ∀ e2 ∈ pal, e1.1 = e2.1 → e1 = e2 := by
  induction pal with
  | nil => intro e1 h1; cases h1
  | cons a t ih =>
      intro e1 h1 e2 h2 hk
      simp only [List.map_cons, List.nodup_cons] at hnd
      rcases List.mem_cons.mp h1 with rfl | h1t
      · rcases List.mem_cons.mp h2 with rfl | h2t
        · rfl
        · exact absurd (hk ▸ List.mem_map_of_mem Prod.fst h2t) hnd.1
      · rcases List.mem_cons.mp h2 with rfl | h2t
        · exact absurd (hk ▸ List.mem_map_of_mem Prod.fst h1t) hnd.1
        · exact ih hnd.2 e1 h1t e2 h2t hk
  
lemma lookupPal_nodup {pal : List (Nat × Pixel)} {ci : Nat} {v : Pixel}
    (hnd : (pal.map Prod.fst).Nodup) (hmem : (ci, v) ∈ pal) :
    lookupPal pal ci = some v := by
  unfold lookupPal
  cases hf : pal.find? (fun e => e.1 == ci) with
  | none =>
      exfalso
      have := List.find?_eq_none.mp hf (ci, v) hmem
      simp at this
  | some e =>
      have hememb := List.mem_of_find?_eq_some hf
      have hk : e.1 = ci := by simpa using List.find?_some hf
      have : e = (ci, v) := nodup_keys_entry_eq hnd e hememb (ci, v) hmem (by simp [hk])
      simp [this]

lemma contains_palValues {pal : List (Nat × Pixel)} {v : Pixel}
    (hc : (palValues pal).contains v = true) :
    ∃ e, e ∈ pal ∧ e.2 = v := by
  unfold palValues at hc
  rw [List.contains_eq_any_beq] at hc
  rw [List.any_eq_true] at hc
  obtain ⟨w, hw, hww⟩ := hc
  obtain ⟨e, he, rfl⟩ := List.mem_map.mp hw
  exact ⟨e, he, by
    have := hww
    simp at this
    exact this.symm⟩

lemma revLookupPal_isSome_of_value {pal : List (Nat × Pixel)} {v : Pixel}
    (h : ∃ e, e ∈ pal ∧ e.2 = v) : ∃ ci, revLookupPal pal v = some ci := by
  obtain ⟨e, he, hev⟩ := h
  unfold revLookupPal
  cases hf : pal.find? (fun x => x.2 == v) with
  | none =>
      exfalso
      have := List.find?_eq_none.mp hf e he
      simp [hev] at this
  | some e' => exact ⟨e'.1, by simp⟩

lemma la_m_total : ∀ (fuel : Nat) (copt : Option (Nat × List (Nat × Pixel)))
    (img : List Pixel) (W : Nat) (p : Pixel) (pix : Nat) (tl : Bool) (c : Nat),
    W - c ≤ fuel → W < img.length →
    ∃ r, look_ahead_matching copt img W 0 p pix tl c = some r := by
  intro fuel
  induction fuel with
  | zero =>
      intro copt img W p pix tl c hf hlen
      unfold look_ahead_matching
      split
      · next h => omega
      · exact ⟨c, rfl⟩
  | succ f ih =>
      intro copt img W p pix tl c hf hlen
      unfold look_ahead_matching
      split
      · next h =>
          obtain ⟨nx, himg⟩ : ∃ x, img[0 * W + pix + c + 1]? = some x :=
            ⟨_, List.getElem?_eq_getElem (by omega)⟩
          rw [himg]
          simp only []
          by_cases h1 : p ≠ nx
          · exact ⟨c, by rw [if_pos h1]⟩
          · rw [if_neg h1]
            by_cases h2 : paletteBreakTruthy copt nx = true
            · exact ⟨c, by rw [if_pos h2]⟩
            · rw [if_neg h2]
              by_cases h3 : tl = true ∧ c + 1 = 22
              · exact ⟨c + 1, by rw [if_pos h3]⟩
              · rw [if_neg h3]
                by_cases h4 : c + 1 = 23
                · exact ⟨c + 1, by rw [if_pos h4]⟩
                · rw [if_neg h4]
                  exact ih copt img W p pix tl (c + 1) (by omega) hlen
      · exact ⟨c, rfl⟩

lemma la_nm_loop_total : ∀ (fuel : Nat) (copt : Option (Nat × List (Nat × Pixel)))
    (img : List Pixel) (W : Nat) (pix : Nat) (c : Nat),
    W - c ≤ fuel → W < img.length →
    ∃ r, look_ahead_nm_loop copt img W 0 pix c = some r := by
  intro fuel
  induction fuel with
  | zero =>
      intro copt img W pix c hf hlen
      unfold look_ahead_nm_loop
      split
      · exact ⟨c, rfl⟩
      · next h => omega
  | succ f ih =>
      intro copt img W pix c hf hlen
      unfold look_ahead_nm_loop
      split
      · exact ⟨c, rfl⟩
      · next h =>
          obtain ⟨this_px, h1⟩ : ∃ x, img[0 * W + pix + c]? = some x :=
            ⟨_, List.getElem?_eq_getElem (by omega)⟩
          obtain ⟨next_px, h2⟩ : ∃ x, img[0 * W + pix + c + 1]? = some x :=
            ⟨_, List.getElem?_eq_getElem (by omega)⟩
          rw [h1, h2]
          simp only []
          by_cases hb1 : this_px = next_px ∨ this_px.alpha ≠ 255
          · exact ⟨c, by rw [if_pos hb1]⟩
          · rw [if_neg hb1]
            by_cases hb2 : paletteBreakTruthy copt this_px = true
            · exact ⟨c, by rw [if_pos hb2]⟩
            · rw [if_neg hb2]
              by_cases hb3 : c + 1 = 31
              · exact ⟨31, by rw [if_pos hb3]⟩
              · rw [if_neg hb3]
                exact ih copt img W pix (c + 1) (by omega) hlen

lemma la_m_sound : ∀ (fuel : Nat) (copt : Option (Nat × List (Nat × Pixel)))
    (img : List Pixel) (W : Nat) (p : Pixel) (pix : Nat) (tl : Bool) (c r : Nat),
    W - c ≤ fuel →
    look_ahead_matching copt img W 0 p pix tl c = some r →
    c ≤ r ∧ ∀ j, c < j → j ≤ r → pix + j < W ∧ img[pix + j]? = some p := by
  intro fuel
  induction fuel with
  | zero =>
      intro copt img W p pix tl c r hf hsome
      unfold look_ahead_matching at hsome
      split at hsome
      · next h => omega
      · obtain rfl := Option.some.inj hsome
        exact ⟨le_refl c, fun j hj1 hj2 => by omega⟩
  | succ f ih =>
      intro copt img W p pix tl c r hf hsome
      unfold look_ahead_matching at hsome
      split at hsome
      · next h =>
          cases himg : img[0 * W + pix + c + 1]? with
          | none => rw [himg] at hsome; cases hsome
          | some nx =>
              rw [himg] at hsome
              simp only [] at hsome
              have himg' : img[pix + (c + 1)]? = some nx := by
                have harith : 0 * W + pix + c + 1 = pix + (c + 1) := by omega
                rw [harith] at himg
                exact himg
              split_ifs at hsome with h1 h2 h3 h4
              · obtain rfl := Option.some.inj hsome
                exact ⟨le_refl c, fun j hj1 hj2 => by omega⟩
              · obtain rfl := Option.some.inj hsome
                exact ⟨le_refl c, fun j hj1 hj2 => by omega⟩
              · obtain rfl := Option.some.inj hsome
                push_neg at h1
                refine ⟨by omega, fun j hj1 hj2 => ?_⟩
                have : j = c + 1 := by omega
                subst this
                exact ⟨by omega, by rw [himg', h1]⟩
              · obtain rfl := Option.some.inj hsome
                push_neg at h1
                refine ⟨by omega, fun j hj1 hj2 => ?_⟩
                have : j = c + 1 := by omega
                subst this
                exact ⟨by omega, by rw [himg', h1]⟩
              · obtain ⟨hcr, hrest⟩ := ih copt img W p pix tl (c + 1) r (by omega) hsome
                push_neg at h1
                refine ⟨by omega, fun j hj1 hj2 => ?_⟩
                by_cases hj : j = c + 1
                · subst hj
                  exact ⟨by omega, by rw [himg', h1]⟩
                · exact hrest j (by omega) hj2
      · obtain rfl := Option.some.inj hsome
        exact ⟨le_refl c, fun j hj1 hj2 => by omega⟩

lemma la_nm_loop_sound : ∀ (fuel : Nat) (copt : Option (Nat × List (Nat × Pixel)))
    (img : List Pixel) (W : Nat) (pix : Nat) (c r : Nat),
    W - c ≤ fuel →
    look_ahead_nm_loop copt img W 0 pix c = some r →
    c ≤ r ∧ ∀ j, c ≤ j → j < r → pix + j < W ∧
      ∃ q, img[pix + j]? = some q ∧ q.alpha = 255 := by
  intro fuel
  induction fuel with
  | zero =>
      intro copt img W pix c r hf hsome
      unfold look_ahead_nm_loop at hsome
      split at hsome
      · obtain rfl := Option.some.inj hsome
        exact ⟨le_refl c, fun j hj1 hj2 => by omega⟩
      · next h => omega
  | succ f ih =>
      intro copt img W pix c r hf hsome
      unfold look_ahead_nm_loop at hsome
      split at hsome
      · obtain rfl := Option.some.inj hsome
        exact ⟨le_refl c, fun j hj1 hj2 => by omega⟩
      · next h =>
          cases h1 : img[0 * W + pix + c]? with
          | none => rw [h1] at hsome; cases hsome
          | some this_px =>
              cases h2 : img[0 * W + pix + c + 1]? with
              | none => rw [h1, h2] at hsome; cases hsome
              | some next_px =>
                  rw [h1, h2] at hsome
                  simp only [] at hsome
                  have h1' : img[pix + c]? = some this_px := by
                    have harith : 0 * W + pix + c = pix + c := by omega
                    rw [harith] at h1
                    exact h1
                  split_ifs at hsome with hb1 hb2 hb3
                  · obtain rfl := Option.some.inj hsome
                    exact ⟨le_refl c, fun j hj1 hj2 => by omega⟩
                  · obtain rfl := Option.some.inj hsome
                    exact ⟨le_refl c, fun j hj1 hj2 => by omega⟩
                  · obtain rfl := Option.some.inj hsome
                    push_neg at hb1
                    refine ⟨by omega, fun j hj1 hj2 => ?_⟩
                    have : j = c := by omega
                    subst this
                    exact ⟨by omega, this_px, h1', hb1.2⟩
                  · obtain ⟨hcr, hrest⟩ := ih copt img W pix (c + 1) r (by omega) hsome
                    push_neg at hb1
                    refine ⟨by omega, fun j hj1 hj2 => ?_⟩
                    by_cases hj : j = c
                    · subst hj
                      exact ⟨by omega, this_px, h1', hb1.2⟩
                    · exact hrest j (by omega) hj2

lemma la_m_zero (copt : Option (Nat × List (Nat × Pixel))) (img : List Pixel)
    (W : Nat) (p : Pixel) (pix : Nat) (tl : Bool)
    (hsome : look_ahead_matching copt img W 0 p pix tl 0 = some 0) :
    ¬ (pix + 0 + 1 < W) ∨
      ∃ nx, img[pix + 1]? = some nx ∧ (p ≠ nx ∨ paletteBreakTruthy copt nx = true) := by
  unfold look_ahead_matching at hsome
  split at hsome
  · next h =>
      cases himg : img[0 * W + pix + 0 + 1]? with
      | none => rw [himg] at hsome; cases hsome
      | some nx =>
          rw [himg] at hsome
          simp only [] at hsome
          right
          refine ⟨nx, ?_, ?_⟩
          · have harith : 0 * W + pix + 0 + 1 = pix + 1 := by omega
            rw [harith] at himg
            exact himg
          · split_ifs at hsome with h1 h2 h3 h4
            · exact Or.inl h1
            · exact Or.inr h2
            · exact absurd (Option.some.inj hsome) (by omega)
            · exact absurd (Option.some.inj hsome) (by omega)
            · exact absurd (la_m_sound W copt img W p pix tl 1 0 (by omega) hsome).1
                (by omega)
  · next h => exact Or.inl h

lemma la_nm_zero (copt : Option (Nat × List (Nat × Pixel))) (img : List Pixel)
    (W : Nat) (pix : Nat)
    (hsome : look_ahead_nm_loop copt img W 0 pix 0 = some 0) (hpix : pix < W) :
    ∃ this_px nx, img[pix]? = some this_px ∧ img[pix + 1]? = some nx ∧
      (this_px = nx ∨ this_px.alpha ≠ 255 ∨ paletteBreakTruthy copt this_px = true) := by
  unfold look_ahead_nm_loop at hsome
  split at hsome
  · next h => omega
  · next h =>
      cases h1 : img[0 * W + pix + 0]? with
      | none => rw [h1] at hsome; cases hsome
      | some this_px =>
          cases h2 : img[0 * W + pix + 0 + 1]? with
          | none => rw [h1, h2] at hsome; cases hsome
          | some nx =>
              rw [h1, h2] at hsome
              simp only [] at hsome
              have e1 : 0 * W + pix + 0 = pix := by omega
              have e2 : 0 * W + pix + 0 + 1 = pix + 1 := by omega
              rw [e1] at h1
              rw [e2] at h2
              refine ⟨this_px, nx, h1, h2, ?_⟩
              split_ifs at hsome with hb1 hb2 hb3
              · rcases hb1 with hb | hb
                · exact Or.inl hb
                · exact Or.inr (Or.inl hb)
              · exact Or.inr (Or.inr hb2)
              · omega
              · exact absurd (la_nm_loop_sound W copt img W pix 1 0 (by omega) hsome).1
                  (by omega)

lemma literalBytes_total (img : List Pixel) (W pix : Nat) : ∀ (count i : Nat),
    (∀ j, j < count → ∃ q, img[pix + i + j]? = some q ∧ pixelBody q ≤ 0xFFFF) →
    ∃ bs, literalBytes img W 0 pix i count = some bs := by
  intro count
  induction count with
  | zero => intro i _; exact ⟨[], rfl⟩
  | succ k ih =>
      intro i h
      obtain ⟨q, hq, hqb⟩ := h 0 (by omega)
      obtain ⟨bs, hbs⟩ := ih (i + 1) (fun j hj => by
        obtain ⟨q', hq', hqb'⟩ := h (j + 1) (by omega)
        have e : pix + i + (j + 1) = pix + (i + 1) + j := by omega
        rw [e] at hq'
        exact ⟨q', hq', hqb'⟩)
      refine ⟨pixelBody q % 256 :: pixelBody q / 256 :: bs, ?_⟩
      unfold literalBytes
      have e : 0 * W + pix + i = pix + i + 0 := by omega
      rw [e]
      have e2 : pix + i + 0 = pix + i + 0 := rfl
      rw [show pix + i + 0 = pix + i by omega] at *
      rw [hq]
      simp only []
      rw [if_neg (by omega)]
      rw [hbs]
      rfl

lemma drop_take_eq_replicate (row : List Pixel) (pix run : Nat) (p : Pixel)
    (hle : pix + run ≤ row.length)
    (hall : ∀ j, j < run → row[pix + j]? = some p) :
    (row.drop pix).take run = List.replicate run p := by
  have hlen : ((row.drop pix).take run).length = run := by
    simp [List.length_take, List.length_drop]
    omega
  have hmem : ∀ b ∈ (row.drop pix).take run, b = p := by
    intro b hb
    obtain ⟨k, hk, hbk⟩ := List.mem_iff_getElem.mp hb
    have hk' : k < run := by rw [hlen] at hk; exact hk
    have hkd : k < (row.drop pix).length := by
      simp [List.length_drop]
      omega
    have hkr : pix + k < row.length := by omega
    have h1 : (row.drop pix).take run = List.take run (row.drop pix) := rfl
    have h2 : ((row.drop pix).take run)[k] = (row.drop pix)[k] := List.getElem_take ..
    have h3 : (row.drop pix)[k] = row[pix + k] := List.getElem_drop ..
    have h4 : row[pix + k]? = some (row[pix + k]) := List.getElem?_eq_getElem hkr
    have h5 : row[pix + k] = p := by
      have := hall k hk'
      rw [h4] at this
      exact Option.some.inj this
    rw [← hbk, h2, h3, h5]
  calc (row.drop pix).take run
      = List.replicate ((row.drop pix).take run).length p :=
        List.eq_replicate_of_mem hmem
    _ = List.replicate run p := by rw [hlen]

lemma drop_take_eq_of_getElem? (row : List Pixel) (pix nm : Nat) (ps : List Pixel)
    (hle : pix + nm ≤ row.length) (hlen : ps.length = nm)
    (hall : ∀ j, j < nm → ps[j]? = row[pix + j]?) :
    ps = (row.drop pix).take nm := by
  apply List.ext_getElem?
  intro i
  by_cases hi : i < nm
  · rw [hall i hi]
    rw [List.getElem?_take, if_pos hi, List.getElem?_drop]
  · have h1 : ps[i]? = none := List.getElem?_eq_none (by omega)
    have h2 : ((row.drop pix).take nm)[i]? = none := by
      apply List.getElem?_eq_none
      simp [List.length_take, List.length_drop]
      omega
    rw [h1, h2]

lemma decodeOps_step (pal : List (Nat × Pixel)) (h : Nat) (t Δ rest : List Nat)
    (ps tl2 : List Pixel) (m : Nat)
    (hop : decodeOp pal h (t ++ (Δ ++ rest)) = some (ps, t.length))
    (hrest : decodeOps pal (Δ.length + m) (Δ ++ rest) = some tl2) :
    decodeOps pal (((h :: t) ++ Δ).length + m) (((h :: t) ++ Δ) ++ rest) =
      some (ps ++ tl2) := by
  have hlen : ((h :: t) ++ Δ).length + m = 1 + t.length + (Δ.length + m) := by
    simp [List.length_append]
    omega
  rw [hlen, List.append_assoc]
  exact decodeOps_cons pal h t (Δ ++ rest) ps (Δ.length + m) tl2 hop hrest

lemma drop_decomp (row : List Pixel) (pix run : Nat) (ps : List Pixel)
    (h : ps = (row.drop pix).take run) : row.drop pix = ps ++ row.drop (pix + run) := by
  rw [h]
  conv_lhs => rw [← List.take_append_drop run (row.drop pix)]
  rw [List.drop_drop, Nat.add_comm]

lemma img_get_lt {row after : List Pixel} {j : Nat} (hj : j < row.length) :
    (row ++ after)[j]? = row[j]? := List.getElem?_append_left hj

lemma img_len_lt (row after : List Pixel) (hafter : after ≠ []) :
    row.length < (row ++ after).length := by
  have : 0 < after.length := List.length_pos.mpr hafter
  simp only [List.length_append]
  omega

lemma encodeLineLoop_padding (copt : Option (Nat × List (Nat × Pixel)))
    (row after : List Pixel) (L : Nat) (hL : L ≤ row.length)
    (htrans : ∀ j, j < L → row[j]? = some transparency)
    (hstop : L < row.length → row[L]? ≠ some transparency)
    (hafter : after ≠ []) :
    ∀ (n pix off ct : Nat) (buf : List Nat) (lb : Option Nat),
      L - pix ≤ n → pix ≤ L →
      encodeLineLoop copt (row ++ after) row.length 0 pix off ct false buf lb =
      encodeLineLoop copt (row ++ after) row.length 0 L (off + (L - pix)) ct false buf
        lb := by
  intro n
  induction n with
  | zero =>
      intro pix off ct buf lb hn hpix
      have hpl : pix = L := by omega
      subst hpl
      rw [Nat.sub_self, Nat.add_zero]
  | succ f ih =>
      intro pix off ct buf lb hn hpix
      by_cases hpixL : pix = L
      · subst hpixL
        rw [Nat.sub_self, Nat.add_zero]
      · have hpixlt : pix < L := by omega
        have hWlt : pix < row.length := by omega
        have himglen : row.length < (row ++ after).length := img_len_lt row after hafter
        have hacc : (row ++ after)[0 * row.length + pix]? = some transparency := by
          have e : 0 * row.length + pix = pix := by omega
          rw [e, img_get_lt hWlt]
          exact htrans pix hpixlt
        obtain ⟨la, hla⟩ := la_m_total row.length none (row ++ after) row.length
          transparency pix false 0 (by omega) himglen
        have hsound := la_m_sound row.length none (row ++ after) row.length
          transparency pix false 0 la (by omega) hla
        have hbound : pix + (la + 1) ≤ L := by
          by_contra hcon
          push_neg at hcon
          have hstep := hsound.2 (L - pix) (by omega) (by omega)
          have hLlt : L < row.length := by
            have := hstep.1
            omega
          have hsnd := hstep.2
          have e : pix + (L - pix) = L := by omega
          rw [e, img_get_lt hLlt] at hsnd
          exact hstop hLlt hsnd
        conv_lhs => rw [encodeLineLoop]
        rw [dif_neg (by omega : ¬ row.length ≤ pix)]
        rw [hacc]
        simp only []
        rw [if_pos trivial]
        rw [hla]
        simp only []
        rw [if_pos (by decide : (false || decide (transparency ≠ transparency)) = false)]
        rw [show (false || decide (transparency ≠ transparency)) = false from by decide]
        rw [ih (pix + (la + 1)) (off + (la + 1)) ct buf lb (by omega) (by omega)]
        have e2 : off + (la + 1) + (L - (pix + (la + 1))) = off + (L - pix) := by omega
        rw [e2]

lemma encodeLineLoop_main (copt : Option (Nat × List (Nat × Pixel)))
    (pal : List (Nat × Pixel))
    (hcopt : ∀ c pl, copt = some (c, pl) →
      pl = pal ∧ (pl.map Prod.fst).Nodup ∧ ∀ e ∈ pl, e.1 ≤ 31)
    (row after : List Pixel) (hafter : after ≠ [])
    (hrep : ∀ p ∈ row, Representable p)
    (hlast : ∀ q, row.getLast? = some q → q ≠ transparency) :
    ∀ (n pix off ct : Nat) (pad : Bool) (buf : List Nat) (lb : Option Nat),
      row.length - pix ≤ n → pix ≤ row.length →
      (pad = true ∨ row[pix]? ≠ some transparency) →
      ∃ Δ, encodeLineLoop copt (row ++ after) row.length 0 pix off ct pad buf lb =
          some (buf ++ Δ, ct + (row.length - pix), off) ∧
        Δ.length ≤ 3 * (row.length - pix) ∧
        ∀ m rest tl, decodeOps pal m rest = some tl →
          decodeOps pal (Δ.length + m) (Δ ++ rest) = some (row.drop pix ++ tl) := by
  intro n
  induction n with
  | zero =>
      intro pix off ct pad buf lb hn hpix hpre
      have hW : row.length ≤ pix := by omega
      refine ⟨[], ?_, by simp, ?_⟩
      · conv_lhs => rw [encodeLineLoop]
        rw [dif_pos hW]
        rw [show row.length - pix = 0 from by omega]
        simp
      · intro m rest tl hdec
        rw [List.drop_eq_nil_of_le (by omega)]
        simpa using hdec
  | succ f ih =>
      intro pix off ct pad buf lb hn hpix hpre
      by_cases hW : row.length ≤ pix
      · refine ⟨[], ?_, by simp, ?_⟩
        · conv_lhs => rw [encodeLineLoop]
          rw [dif_pos hW]
          rw [show row.length - pix = 0 from by omega]
          simp
        · intro m rest tl hdec
          rw [List.drop_eq_nil_of_le (by omega)]
          simpa using hdec
      · have hWpix : pix < row.length := by omega
        have himglen : row.length < (row ++ after).length := img_len_lt row after hafter
        cases hp : row[pix]? with
        | none =>
            rw [List.getElem?_eq_none_iff] at hp
            omega
        | some p =>
        have himg : (row ++ after)[0 * row.length + pix]? = some p := by
          rw [show 0 * row.length + pix = pix from by omega, img_get_lt hWpix]
          exact hp
        have hpmem : p ∈ row := by
          obtain ⟨hlt, hget⟩ := List.getElem?_eq_some.mp hp
          exact hget ▸ List.getElem_mem hlt
        have hprep : Representable p := hrep p hpmem
        by_cases htr : p = transparency
        · -- interior transparent run: flag-000
          have hpad : pad = true := by
            rcases hpre with h | h
            · exact h
            · exact absurd (by rw [hp, htr]) h
          obtain ⟨la, hla⟩ := la_m_total row.length none (row ++ after) row.length
            p pix false 0 (by omega) himglen
          have hsound := la_m_sound row.length none (row ++ after) row.length
            p pix false 0 la (by omega) hla
          have hla23 : la ≤ 23 := (look_ahead_matching_le _ _ _ _ _ _ _ _ hla).1
          have hnotend : ¬ (row.length ≤ pix + (la + 1)) := by
            intro hcon
            have hWm1 : row[row.length - 1]? = some transparency := by
              by_cases hj0 : pix = row.length - 1
              · rw [← hj0, hp, htr]
              · obtain ⟨hlt, hval⟩ := hsound.2 (row.length - 1 - pix) (by omega) (by omega)
                have e : pix + (row.length - 1 - pix) = row.length - 1 := by omega
                rw [e, img_get_lt (by omega)] at hval
                rw [htr] at hval
                exact hval
            exact hlast transparency
              (by rw [List.getLast?_eq_getElem?]; exact hWm1) rfl
          have hall : ∀ j, j < la + 1 → row[pix + j]? = some p := by
            intro j hj
            rcases Nat.eq_zero_or_pos j with h0 | hpos
            · subst h0; simpa using hp
            · obtain ⟨hlt, hval⟩ := hsound.2 j hpos (by omega)
              rw [img_get_lt hlt] at hval
              exact hval
          obtain ⟨Δ, hres, hlen, hcomp⟩ := ih (pix + (la + 1)) off (ct + (la + 1)) true
            (buf ++ [la + 1]) lb (by omega) (by omega) (Or.inl rfl)
          refine ⟨(la + 1) :: Δ, ?_, ?_, ?_⟩
          · conv_lhs => rw [encodeLineLoop]
            rw [dif_neg (by omega : ¬ row.length ≤ pix)]
            rw [himg]
            simp only []
            rw [if_pos htr]
            rw [hla]
            simp only []
            rw [hpad]
            rw [if_neg (by simp : ¬ ((true || decide (p ≠ transparency)) = false))]
            rw [if_neg hnotend]
            rw [if_neg (by omega : ¬ (la + 1 = 31))]
            rw [Bool.true_or]
            rw [Nat.mod_eq_of_lt (show la + 1 < 32 by omega)]
            rw [hres]
            simp only [Option.some.injEq, Prod.mk.injEq, List.append_assoc,
              List.cons_append, List.nil_append]
            exact ⟨by simp, by omega, by simp⟩
          · simp only [List.length_cons]
            omega
          · intro m rest tl hdec
            have hrest := hcomp m rest tl hdec
            have htake : (row.drop pix).take (la + 1) = List.replicate (la + 1) p :=
              drop_take_eq_replicate row pix (la + 1) p (by omega) hall
            have hop := decodeOp_flag000 pal (la + 1) (by omega) (Δ ++ rest)
            rw [← htr] at hop
            have hfin := decodeOps_step pal (la + 1) [] Δ rest
              (List.replicate (la + 1) p) (row.drop (pix + (la + 1)) ++ tl) m hop hrest
            rw [← List.append_assoc] at hfin
            rw [drop_decomp row pix (la + 1) (List.replicate (la + 1) p) htake.symm]
            exact hfin
        · by_cases hsh : p = shadow
          · -- shadow run: flag-101
            obtain ⟨la, hla⟩ := la_m_total row.length none (row ++ after) row.length
              p pix false 0 (by omega) himglen
            have hsound := la_m_sound row.length none (row ++ after) row.length
              p pix false 0 la (by omega) hla
            have hla23 : la ≤ 23 := (look_ahead_matching_le _ _ _ _ _ _ _ _ hla).1
            have hend : pix + (la + 1) ≤ row.length := by
              rcases Nat.eq_zero_or_pos la with h0 | hpos
              · omega
              · have := (hsound.2 la hpos (le_refl la)).1
                omega
            have hall : ∀ j, j < la + 1 → row[pix + j]? = some p := by
              intro j hj
              rcases Nat.eq_zero_or_pos j with h0 | hpos
              · subst h0; simpa using hp
              · obtain ⟨hlt, hval⟩ := hsound.2 j hpos (by omega)
                rw [img_get_lt hlt] at hval
                exact hval
            obtain ⟨Δ, hres, hlen, hcomp⟩ := ih (pix + (la + 1)) off (ct + (la + 1)) true
              (buf ++ [5 * 32 + (la + 1)]) lb (by omega) (by omega) (Or.inl rfl)
            refine ⟨(5 * 32 + (la + 1)) :: Δ, ?_, ?_, ?_⟩
            · conv_lhs => rw [encodeLineLoop]
              rw [dif_neg (by omega : ¬ row.length ≤ pix)]
              rw [himg]
              simp only []
              rw [if_neg htr]
              rw [if_pos hsh]
              rw [hla]
              simp only []
              rw [show decide (p ≠ transparency) = true from decide_eq_true htr]
              rw [Bool.or_true]
              rw [Nat.mod_eq_of_lt (show la + 1 < 32 by omega)]
              rw [hres]
              simp only [Option.some.injEq, Prod.mk.injEq, List.append_assoc,
                List.cons_append, List.nil_append]
              exact ⟨by simp, by omega, by simp⟩
            · simp only [List.length_cons]
              omega
            · intro m rest tl hdec
              have hrest := hcomp m rest tl hdec
              have htake : (row.drop pix).take (la + 1) = List.replicate (la + 1) p :=
                drop_take_eq_replicate row pix (la + 1) p hend hall
              have hop := decodeOp_flag101 pal (la + 1) (by omega) (Δ ++ rest)
              rw [← hsh] at hop
              have hfin := decodeOps_step pal (5 * 32 + (la + 1)) [] Δ rest
                (List.replicate (la + 1) p) (row.drop (pix + (la + 1)) ++ tl) m hop hrest
              rw [← List.append_assoc] at hfin
              rw [drop_decomp row pix (la + 1) (List.replicate (la + 1) p) htake.symm]
              exact hfin
          · have hrp : Rep565 p := rep565_of_representable hprep htr hsh
            have hbody : pixelBody p ≤ 0xFFFF := pixelBody_le hrp.1 hrp.2.1 hrp.2.2.1
            have htake1 : [p] = (row.drop pix).take 1 :=
              drop_take_eq_of_getElem? row pix 1 [p] (by omega) rfl
                (fun j hj => by
                  have hj0 : j = 0 := by omega
                  subst hj0
                  simpa using hp.symm)
            cases hpm : (match copt with
              | some (c, pal') =>
                  if (palValues pal').contains (maxAlpha p) then some (c, pal') else none
              | none => none) with
            | some cp =>
              obtain ⟨c, pl⟩ := cp
              have hcopteq : copt = some (c, pl) ∧
                  (palValues pl).contains (maxAlpha p) = true := by
                cases hcv : copt with
                | none => rw [hcv] at hpm; exact absurd hpm (by simp)
                | some q =>
                    obtain ⟨c', pl'⟩ := q
                    rw [hcv] at hpm
                    simp only [] at hpm
                    by_cases hq : (palValues pl').contains (maxAlpha p)
                    · rw [if_pos hq] at hpm
                      injection hpm with h2
                      injection h2 with he1 he2
                      exact ⟨by rw [he1, he2], by rw [← he2]; exact hq⟩
                    · rw [if_neg hq] at hpm; cases hpm
              obtain ⟨hcv, hcont⟩ := hcopteq
              obtain ⟨hpleq, hnd, hkeys⟩ := hcopt c pl hcv
              rw [hpleq] at hpm hcont hnd hkeys
              by_cases halpha : p.alpha < 255
              · -- translucent player color: flag-111
                obtain ⟨ci, hrev⟩ :=
                  revLookupPal_isSome_of_value (contains_palValues hcont)
                obtain ⟨e, hemem, he1, he2⟩ := revLookupPal_mem hrev
                have hci : ci ≤ 31 := he1 ▸ hkeys e hemem
                have hmemciv : (ci, maxAlpha p) ∈ pal := by
                  rw [← he1, ← he2]
                  simpa using hemem
                have hv : lookupPal pal ci = some (maxAlpha p) := lookupPal_nodup hnd hmemciv
                have hpixeq : ({ maxAlpha p with
                    alpha := expand5 (quant5 p.alpha % 32) } : Pixel) = p := by
                  rw [← from_int_rep hrp]
                  exact reconstruct_translucent hrp
                obtain ⟨Δ, hres, hlen, hcomp⟩ := ih (pix + 1) off (ct + 1) true
                  (buf ++ [7 * 32 + 28 + ci % 4,
                    (ci % 32 - ci % 4) * 8 + quant5 p.alpha % 32])
                  (some ((ci % 32 - ci % 4) * 8 + quant5 p.alpha % 32))
                  (by omega) (by omega) (Or.inl rfl)
                refine ⟨(7 * 32 + 28 + ci % 4) ::
                  ((ci % 32 - ci % 4) * 8 + quant5 p.alpha % 32) :: Δ, ?_, ?_, ?_⟩
                · conv_lhs => rw [encodeLineLoop]
                  rw [dif_neg (by omega : ¬ row.length ≤ pix)]
                  rw [himg]
                  simp only []
                  rw [if_neg htr]
                  rw [if_neg hsh]
                  rw [hpm]
                  simp only []
                  rw [if_pos halpha]
                  rw [hrev]
                  simp only []
                  rw [show decide (p ≠ transparency) = true from decide_eq_true htr]
                  rw [Bool.or_true]
                  rw [hres]
                  simp only [Option.some.injEq, Prod.mk.injEq, List.append_assoc,
                    List.cons_append, List.nil_append]
                  exact ⟨by simp, by omega, by simp⟩
                · simp only [List.length_cons]
                  omega
                · intro m rest tl hdec
                  have hrest := hcomp m rest tl hdec
                  have hop := decodeOp_flag111_single pal ci (quant5 p.alpha % 32)
                    (maxAlpha p) hci (by omega) hv (Δ ++ rest)
                  rw [hpixeq] at hop
                  have hfin := decodeOps_step pal (7 * 32 + 28 + ci % 4)
                    [(ci % 32 - ci % 4) * 8 + quant5 p.alpha % 32] Δ rest
                    [p] (row.drop (pix + 1) ++ tl) m hop hrest
                  rw [← List.append_assoc] at hfin
                  rw [drop_decomp row pix 1 [p] htake1]
                  exact hfin
              · -- opaque player color: flag-110
                have ha255 : p.alpha = 255 := by
                  have := hrp.2.2.2.1
                  omega
                have hpmax : maxAlpha p = p := by
                  obtain ⟨r, g, b, a⟩ := p
                  simp only [] at ha255
                  simp [maxAlpha, ha255]
                obtain ⟨ci, hrev⟩ : ∃ ci, revLookupPal pal p = some ci := by
                  apply revLookupPal_isSome_of_value
                  obtain ⟨e, he, hev⟩ := contains_palValues hcont
                  exact ⟨e, he, by rw [hev, hpmax]⟩
                obtain ⟨e, hemem, he1, he2⟩ := revLookupPal_mem hrev
                have hci : ci ≤ 31 := he1 ▸ hkeys e hemem
                have hmemciv : (ci, p) ∈ pal := by
                  rw [← he1, ← he2]
                  simpa using hemem
                have hv : lookupPal pal ci = some p := lookupPal_nodup hnd hmemciv
                obtain ⟨Δ, hres, hlen, hcomp⟩ := ih (pix + 1) off (ct + 1) true
                  (buf ++ [6 * 32 + ci]) lb (by omega) (by omega) (Or.inl rfl)
                refine ⟨(6 * 32 + ci) :: Δ, ?_, ?_, ?_⟩
                · conv_lhs => rw [encodeLineLoop]
                  rw [dif_neg (by omega : ¬ row.length ≤ pix)]
                  rw [himg]
                  simp only []
                  rw [if_neg htr]
                  rw [if_neg hsh]
                  rw [hpm]
                  simp only []
                  rw [if_neg halpha]
                  rw [hrev]
                  simp only []
                  rw [show decide (p ≠ transparency) = true from decide_eq_true htr]
                  rw [Bool.or_true]
                  rw [Nat.mod_eq_of_lt (show ci < 32 by omega)]
                  rw [hres]
                  simp only [Option.some.injEq, Prod.mk.injEq, List.append_assoc,
                    List.cons_append, List.nil_append]
                  exact ⟨by simp, by omega, by simp⟩
                · simp only [List.length_cons]
                  omega
                · intro m rest tl hdec
                  have hrest := hcomp m rest tl hdec
                  have hop := decodeOp_flag110 pal ci p hci hv (Δ ++ rest)
                  have hfin := decodeOps_step pal (6 * 32 + ci) [] Δ rest
                    [p] (row.drop (pix + 1) ++ tl) m hop hrest
                  rw [← List.append_assoc] at hfin
                  rw [drop_decomp row pix 1 [p] htake1]
                  exact hfin
            | none =>
              have hcontF : ∀ c pl, copt = some (c, pl) →
                  (palValues pl).contains (maxAlpha p) = false := by
                intro c pl hcv
                rw [hcv] at hpm
                simp only [] at hpm
                by_cases hq : (palValues pl).contains (maxAlpha p)
                · rw [if_pos hq] at hpm; cases hpm
                · exact Bool.eq_false_iff.mpr hq
              have htruthyF : paletteBreakTruthy copt p = false := by
                cases hcv : copt with
                | none => rfl
                | some q =>
                    obtain ⟨c, pl⟩ := q
                    simp only [paletteBreakTruthy]
                    rw [hcontF c pl hcv, Bool.and_false]
              by_cases halpha : p.alpha < 255
              · -- translucent literal: flag-100 / flag-011
                have ha31 : quant5 p.alpha ≤ 31 := quant5_le p.alpha hrp.2.2.2.1
                obtain ⟨la, hla⟩ := la_m_total row.length none (row ++ after) row.length
                  p pix true 0 (by omega) himglen
                have hsound := la_m_sound row.length none (row ++ after) row.length
                  p pix true 0 la (by omega) hla
                have hla22 : la ≤ 22 := (look_ahead_matching_le _ _ _ _ _ _ _ _ hla).2 rfl
                have hend : pix + (la + 1) ≤ row.length := by
                  rcases Nat.eq_zero_or_pos la with h0 | hpos
                  · omega
                  · have := (hsound.2 la hpos (le_refl la)).1
                    omega
                have hall : ∀ j, j < la + 1 → row[pix + j]? = some p := by
                  intro j hj
                  rcases Nat.eq_zero_or_pos j with h0 | hpos
                  · subst h0; simpa using hp
                  · obtain ⟨hlt, hval⟩ := hsound.2 j hpos (by omega)
                    rw [img_get_lt hlt] at hval
                    exact hval
                by_cases hrun1 : la + 1 = 1
                · -- single translucent pixel: flag-100
                  obtain ⟨Δ, hres, hlen, hcomp⟩ := ih (pix + 1) off (ct + 1) true
                    (buf ++ [4 * 32 + quant5 p.alpha % 32, pixelBody p % 256,
                      pixelBody p / 256]) (some (pixelBody p))
                    (by omega) (by omega) (Or.inl rfl)
                  refine ⟨(4 * 32 + quant5 p.alpha % 32) :: pixelBody p % 256 ::
                    pixelBody p / 256 :: Δ, ?_, ?_, ?_⟩
                  · conv_lhs => rw [encodeLineLoop]
                    rw [dif_neg (by omega : ¬ row.length ≤ pix)]
                    rw [himg]
                    simp only []
                    rw [if_neg htr]
                    rw [if_neg hsh]
                    rw [hpm]
                    simp only []
                    rw [if_pos halpha]
                    rw [hla]
                    simp only []
                    rw [if_pos hrun1]
                    rw [if_neg (by omega : ¬ 0xFFFF < pixelBody p)]
                    rw [show decide (p ≠ transparency) = true from decide_eq_true htr]
                    rw [Bool.or_true]
                    rw [hres]
                    simp only [Option.some.injEq, Prod.mk.injEq, List.append_assoc,
                      List.cons_append, List.nil_append]
                    exact ⟨by simp, by omega, by simp⟩
                  · simp only [List.length_cons]
                    omega
                  · intro m rest tl hdec
                    have hrest := hcomp m rest tl hdec
                    have hop := decodeOp_flag100 pal (quant5 p.alpha % 32) (pixelBody p)
                      (by omega) (Δ ++ rest)
                    have hq : ({ Pixel.from_int (pixelBody p) with
                        alpha := expand5 (quant5 p.alpha % 32) } : Pixel) = p :=
                      reconstruct_translucent hrp
                    rw [hq] at hop
                    have hfin := decodeOps_step pal (4 * 32 + quant5 p.alpha % 32)
                      [pixelBody p % 256, pixelBody p / 256] Δ rest
                      [p] (row.drop (pix + 1) ++ tl) m hop hrest
                    rw [← List.append_assoc] at hfin
                    rw [drop_decomp row pix 1 [p] htake1]
                    exact hfin
                · -- translucent run: flag-011
                  obtain ⟨Δ, hres, hlen, hcomp⟩ := ih (pix + (la + 1)) off (ct + (la + 1))
                    true (buf ++ [3 * 32 + (la + 1), quant5 p.alpha,
                      pixelBody p % 256, pixelBody p / 256]) (some (pixelBody p))
                    (by omega) (by omega) (Or.inl rfl)
                  refine ⟨(3 * 32 + (la + 1)) :: quant5 p.alpha ::
                    pixelBody p % 256 :: pixelBody p / 256 :: Δ, ?_, ?_, ?_⟩
                  · conv_lhs => rw [encodeLineLoop]
                    rw [dif_neg (by omega : ¬ row.length ≤ pix)]
                    rw [himg]
                    simp only []
                    rw [if_neg htr]
                    rw [if_neg hsh]
                    rw [hpm]
                    simp only []
                    rw [if_pos halpha]
                    rw [hla]
                    simp only []
                    rw [if_neg hrun1]
                    rw [if_neg (show ¬ (0xFFFF < pixelBody p ∨ 0xFF < quant5 p.alpha) from
                      by push_neg; exact ⟨by omega, by omega⟩)]
                    rw [show decide (p ≠ transparency) = true from decide_eq_true htr]
                    rw [Bool.or_true]
                    rw [Nat.mod_eq_of_lt (show la + 1 < 32 by omega)]
                    rw [hres]
                    simp only [Option.some.injEq, Prod.mk.injEq, List.append_assoc,
                      List.cons_append, List.nil_append]
                    exact ⟨by simp, by omega, by simp⟩
                  · simp only [List.length_cons]
                    omega
                  · intro m rest tl hdec
                    have hrest := hcomp m rest tl hdec
                    have htake : (row.drop pix).take (la + 1) =
                        List.replicate (la + 1) p :=
                      drop_take_eq_replicate row pix (la + 1) p hend hall
                    have hop := decodeOp_flag011 pal (la + 1) (quant5 p.alpha)
                      (pixelBody p) (by omega) (Δ ++ rest)
                    have hq : ({ Pixel.from_int (pixelBody p) with
                        alpha := expand5 (quant5 p.alpha % 32) } : Pixel) = p :=
                      reconstruct_translucent hrp
                    rw [hq] at hop
                    have hfin := decodeOps_step pal (3 * 32 + (la + 1))
                      [quant5 p.alpha, pixelBody p % 256, pixelBody p / 256] Δ rest
                      (List.replicate (la + 1) p) (row.drop (pix + (la + 1)) ++ tl) m
                      hop hrest
                    rw [← List.append_assoc] at hfin
                    rw [drop_decomp row pix (la + 1) (List.replicate (la + 1) p)
                      htake.symm]
                    exact hfin
              · -- opaque literal: flag-001 or flag-010
                have ha255 : p.alpha = 255 := by
                  have := hrp.2.2.2.1
                  omega
                obtain ⟨mm, hla⟩ := la_m_total row.length copt (row ++ after) row.length
                  p pix false 0 (by omega) himglen
                have hsound := la_m_sound row.length copt (row ++ after) row.length
                  p pix false 0 mm (by omega) hla
                have hm23 : mm ≤ 23 := (look_ahead_matching_le _ _ _ _ _ _ _ _ hla).1
                by_cases hm : mm ≠ 0
                · -- solid run: flag-001
                  have hend : pix + (mm + 1) ≤ row.length := by
                    have := (hsound.2 mm (by omega) (le_refl mm)).1
                    omega
                  have hall : ∀ j, j < mm + 1 → row[pix + j]? = some p := by
                    intro j hj
                    rcases Nat.eq_zero_or_pos j with h0 | hpos
                    · subst h0; simpa using hp
                    · obtain ⟨hlt, hval⟩ := hsound.2 j hpos (by omega)
                      rw [img_get_lt hlt] at hval
                      exact hval
                  obtain ⟨Δ, hres, hlen, hcomp⟩ := ih (pix + (mm + 1)) off (ct + (mm + 1))
                    true (buf ++ [1 * 32 + (mm + 1), pixelBody p % 256,
                      pixelBody p / 256]) (some (pixelBody p))
                    (by omega) (by omega) (Or.inl rfl)
                  refine ⟨(1 * 32 + (mm + 1)) :: pixelBody p % 256 ::
                    pixelBody p / 256 :: Δ, ?_, ?_, ?_⟩
                  · conv_lhs => rw [encodeLineLoop]
                    rw [dif_neg (by omega : ¬ row.length ≤ pix)]
                    rw [himg]
                    simp only []
                    rw [if_neg htr]
                    rw [if_neg hsh]
                    rw [hpm]
                    simp only []
                    rw [if_neg halpha]
                    rw [hla]
                    simp only []
                    rw [dif_pos hm]
                    rw [if_neg (by omega : ¬ 0xFFFF < pixelBody p)]
                    rw [show decide (p ≠ transparency) = true from decide_eq_true htr]
                    rw [Bool.or_true]
                    rw [Nat.mod_eq_of_lt (show mm + 1 < 32 by omega)]
                    rw [hres]
                    simp only [Option.some.injEq, Prod.mk.injEq, List.append_assoc,
                      List.cons_append, List.nil_append]
                    exact ⟨by simp, by omega, by simp⟩
                  · simp only [List.length_cons]
                    omega
                  · intro m rest tl hdec
                    have hrest := hcomp m rest tl hdec
                    have htake : (row.drop pix).take (mm + 1) =
                        List.replicate (mm + 1) p :=
                      drop_take_eq_replicate row pix (mm + 1) p hend hall
                    have hop := decodeOp_flag001 pal (mm + 1) (pixelBody p)
                      (by omega) (Δ ++ rest)
                    rw [from_int_rep_full hrp ha255] at hop
                    have hfin := decodeOps_step pal (1 * 32 + (mm + 1))
                      [pixelBody p % 256, pixelBody p / 256] Δ rest
                      (List.replicate (mm + 1) p) (row.drop (pix + (mm + 1)) ++ tl) m
                      hop hrest
                    rw [← List.append_assoc] at hfin
                    rw [drop_decomp row pix (mm + 1) (List.replicate (mm + 1) p)
                      htake.symm]
                    exact hfin
                · -- literal run: flag-010
                  have hm0 : mm = 0 := by omega
                  subst hm0
                  obtain ⟨nm, hnmv, hnm0, hnmle, hend, hsoundnm⟩ :
                      ∃ nm, look_ahead_non_matching copt (row ++ after) row.length 0 pix =
                          some nm ∧ nm ≠ 0 ∧ nm ≤ 31 ∧ pix + nm ≤ row.length ∧
                        ∀ j, j < nm → pix + j < row.length ∧
                          ∃ q, row[pix + j]? = some q ∧ q.alpha = 255 := by
                    by_cases hlastpix : (pix : Int) = (row.length : Int) - 1
                    · refine ⟨1, ?_, by omega, by omega, by omega, ?_⟩
                      · rw [look_ahead_non_matching, if_pos hlastpix]
                      · intro j hj
                        have hj0 : j = 0 := by omega
                        subst hj0
                        exact ⟨by omega, p, by simpa using hp, ha255⟩
                    · have hp1 : pix + 1 < row.length := by
                        rcases Nat.lt_or_ge (pix + 1) row.length with h | h
                        · exact h
                        · exact absurd (by omega : (pix : Int) = (row.length : Int) - 1)
                            hlastpix
                      obtain ⟨nm, hloop⟩ := la_nm_loop_total row.length copt (row ++ after)
                        row.length pix 0 (by omega) himglen
                      have hnmv : look_ahead_non_matching copt (row ++ after) row.length
                          0 pix = some nm := by
                        rw [look_ahead_non_matching, if_neg hlastpix]
                        exact hloop
                      have hnm0 : nm ≠ 0 := by
                        intro h0
                        subst h0
                        obtain ⟨tpx, nx, htpx, hnx, hdisj⟩ := la_nm_zero copt (row ++ after)
                          row.length pix hloop (by omega)
                        have htpxp : tpx = p := by
                          rw [img_get_lt hWpix, hp] at htpx
                          exact (Option.some.inj htpx).symm
                        rw [htpxp] at hdisj
                        rcases hdisj with he | ha' | htruthy
                        · rcases la_m_zero copt (row ++ after) row.length p pix false hla
                            with hnolook | ⟨nx', hnx', hdisj2⟩
                          · omega
                          · have hnxeq : nx' = nx := by
                              rw [hnx] at hnx'
                              exact (Option.some.inj hnx').symm
                            subst hnxeq
                            rcases hdisj2 with hne | htruthy2
                            · exact hne he
                            · rw [← he, htruthyF] at htruthy2
                              cases htruthy2
                        · exact ha' ha255
                        · rw [htruthyF] at htruthy
                          cases htruthy
                      have hle : nm ≤ 31 := look_ahead_non_matching_le _ _ _ _ _ _ hnmv
                      have hsoundloop := la_nm_loop_sound row.length copt (row ++ after)
                        row.length pix 0 nm (by omega) hloop
                      refine ⟨nm, hnmv, hnm0, hle, ?_, ?_⟩
                      · obtain ⟨hlt, _⟩ := hsoundloop.2 (nm - 1) (by omega) (by omega)
                        omega
                      · intro j hj
                        obtain ⟨hlt, q, hq, hqa⟩ := hsoundloop.2 j (by omega) hj
                        rw [img_get_lt hlt] at hq
                        exact ⟨hlt, q, hq, hqa⟩
                  have hbodies : ∀ j, j < nm → ∃ q,
                      (row ++ after)[pix + 0 + j]? = some q ∧ pixelBody q ≤ 0xFFFF := by
                    intro j hj
                    obtain ⟨hlt, q, hq, hqa⟩ := hsoundnm j hj
                    have hqmem : q ∈ row := by
                      obtain ⟨hlt2, hget⟩ := List.getElem?_eq_some.mp hq
                      exact hget ▸ List.getElem_mem hlt2
                    have hqrep : Rep565 q := by
                      obtain ⟨h1, h2⟩ := not_sentinel_of_alpha hqa
                      exact rep565_of_representable (hrep q hqmem) h1 h2
                    refine ⟨q, ?_, pixelBody_le hqrep.1 hqrep.2.1 hqrep.2.2.1⟩
                    rw [show pix + 0 + j = pix + j from by omega, img_get_lt hlt]
                    exact hq
                  obtain ⟨bs, hlit⟩ := literalBytes_total (row ++ after) row.length pix
                    nm 0 hbodies
                  obtain ⟨hlastlt, lastq, hlastq, hlastqa⟩ := hsoundnm (nm - 1) (by omega)
                  have hlastacc : (row ++ after)[0 * row.length + pix + (nm - 1)]? =
                      some lastq := by
                    rw [show 0 * row.length + pix + (nm - 1) = pix + (nm - 1) from by omega,
                      img_get_lt hlastlt]
                    exact hlastq
                  obtain ⟨hbslen, hrun⟩ := literalBytes_decode (row ++ after) row.length
                    0 pix nm 0 bs hlit
                  obtain ⟨Δ, hres, hlen, hcomp⟩ := ih (pix + nm) off (ct + nm)
                    true (buf ++ (2 * 32 + nm) :: bs) (some (pixelBody lastq))
                    (by omega) (by omega) (Or.inl rfl)
                  refine ⟨(2 * 32 + nm) :: bs ++ Δ, ?_, ?_, ?_⟩
                  · conv_lhs => rw [encodeLineLoop]
                    rw [dif_neg (by omega : ¬ row.length ≤ pix)]
                    rw [himg]
                    simp only []
                    rw [if_neg htr]
                    rw [if_neg hsh]
                    rw [hpm]
                    simp only []
                    rw [if_neg halpha]
                    rw [hla]
                    simp only []
                    rw [dif_neg (by omega : ¬ (0 : Nat) ≠ 0)]
                    rw [hnmv]
                    simp only []
                    rw [dif_pos hnm0]
                    rw [hlit, hlastacc]
                    simp only []
                    rw [show decide (p ≠ transparency) = true from decide_eq_true htr]
                    rw [Bool.or_true]
                    rw [Nat.mod_eq_of_lt (show nm < 32 by omega)]
                    rw [hres]
                    simp only [Option.some.injEq, Prod.mk.injEq, List.append_assoc,
                      List.cons_append, List.nil_append]
                    exact ⟨by simp, by omega, by simp⟩
                  · simp only [List.length_cons, List.length_append]
                    omega
                  · intro m rest tl hdec
                    have hrest := hcomp m rest tl hdec
                    obtain ⟨ps, hps, hpslen, hidx⟩ := hrun (Δ ++ rest)
                    have htake : ps = (row.drop pix).take nm := by
                      apply drop_take_eq_of_getElem? row pix nm ps hend hpslen
                      intro j hj
                      obtain ⟨q, hq, hpsj⟩ := hidx j hj
                      obtain ⟨hlt, q', hq', hqa'⟩ := hsoundnm j hj
                      rw [show 0 * row.length + pix + (0 + j) = pix + j from by omega,
                        img_get_lt hlt] at hq
                      have hqeq : q = q' := by
                        rw [hq'] at hq
                        exact (Option.some.inj hq).symm
                      subst hqeq
                      have hqmem : q ∈ row := by
                        obtain ⟨hlt2, hget⟩ := List.getElem?_eq_some.mp hq'
                        exact hget ▸ List.getElem_mem hlt2
                      have hqrep : Rep565 q := by
                        obtain ⟨h1, h2⟩ := not_sentinel_of_alpha hqa'
                        exact rep565_of_representable (hrep q hqmem) h1 h2
                      rw [hpsj, from_int_rep_full hqrep hqa', hq']
                    have hop := decodeOp_flag010 pal nm bs (Δ ++ rest) ps hnmle hbslen hps
                    rw [← hbslen] at hop
                    have hfin := decodeOps_step pal (2 * 32 + nm) bs Δ rest
                      ps (row.drop (pix + nm) ++ tl) m hop hrest
                    rw [← List.append_assoc] at hfin
                    rw [drop_decomp row pix nm ps htake]
                    exact hfin

lemma wll_small {k : Nat} (hk : k ≤ 0x7F) : write_line_length k = [k] := by
  unfold write_line_length
  rw [if_pos hk]

lemma wll_big {k : Nat} (hk : 0x7F < k) :
    write_line_length k = [(k + 0x8000) / 256, (k + 0x8000) % 256] := by
  unfold write_line_length
  rw [if_neg (by omega)]

lemma rll_small (v : Nat) (hv : v ≤ 0x7F) (b : Nat) (rest : List Nat) :
    read_line_length (v :: b :: rest) = (v, 1) := by
  unfold read_line_length
  simp only []
  rw [if_neg (by omega)]

lemma rll_big (v : Nat) (hv1 : 0x7F < v) (hv2 : v ≤ 0x7FFF) (rest' : List Nat) :
    read_line_length ((v + 0x8000) / 256 :: (v + 0x8000) % 256 :: rest') = (v, 2) := by
  unfold read_line_length
  simp only []
  rw [if_pos (by omega)]
  simp only [Prod.mk.injEq]
  exact ⟨by omega, by trivial⟩

lemma parseLine_header (Δ : List Nat) (ct off : Nat)
    (hlen : Δ.length ≤ 0x7FFA) (hoff : off ≤ 0x7F) (hct : ct ≤ 0x7FFF)
    (hΔct : Δ = [] → ct = 0) :
    ∃ bytes, encodeLineHeader Δ ct off = some bytes ∧
      parseLine bytes = (⟨off, ct, Δ.length⟩, Δ) := by
  unfold encodeLineHeader
  rw [if_pos ⟨by omega, by omega, by omega⟩]
  refine ⟨_, rfl, ?_⟩
  by_cases hctw : 0x7F < ct
  · rw [if_pos hctw]
    have hctbytes : write_line_length ct = [(ct + 0x8000) / 256, (ct + 0x8000) % 256] :=
      wll_big hctw
    by_cases htotw : 0x7F < Δ.length + 4
    · rw [if_pos htotw]
      have e1 : read_line_length (write_line_length (Δ.length + (4 + 1)) ++
          off :: (write_line_length ct ++ Δ)) = (Δ.length + (4 + 1), 2) := by
        rw [wll_big (by omega)]
        exact rll_big (Δ.length + (4 + 1)) (by omega) (by omega) _
      unfold parseLine
      rw [e1]
      rw [wll_big (show 0x7F < Δ.length + (4 + 1) from by omega), hctbytes]
      simp only [List.cons_append, List.nil_append]
      simp only [List.drop]
      simp
      rw [rll_small off hoff _ _]
      simp
      rw [rll_big ct (by omega) (by omega) _]
      simp
    · rw [if_neg htotw]
      have e1 : read_line_length (write_line_length (Δ.length + 4) ++
          off :: (write_line_length ct ++ Δ)) = (Δ.length + 4, 1) := by
        rw [wll_small (by omega)]
        exact rll_small (Δ.length + 4) (by omega) _ _
      unfold parseLine
      rw [e1]
      rw [wll_small (show Δ.length + 4 ≤ 0x7F from by omega), hctbytes]
      simp only [List.cons_append, List.nil_append]
      simp only [List.drop]
      simp
      rw [rll_small off hoff _ _]
      simp
      rw [rll_big ct (by omega) (by omega) _]
      simp
  · rw [if_neg hctw]
    have hctbytes : write_line_length ct = [ct] := wll_small (by omega)
    by_cases htotw : 0x7F < Δ.length + 3
    · rw [if_pos htotw]
      have e1 : read_line_length (write_line_length (Δ.length + (3 + 1)) ++
          off :: (write_line_length ct ++ Δ)) = (Δ.length + (3 + 1), 2) := by
        rw [wll_big (by omega)]
        exact rll_big (Δ.length + (3 + 1)) (by omega) (by omega) _
      unfold parseLine
      rw [e1]
      rw [wll_big (show 0x7F < Δ.length + (3 + 1) from by omega), hctbytes]
      simp only [List.cons_append, List.nil_append]
      simp only [List.drop]
      simp
      rw [rll_small off hoff _ _]
      simp
      cases hΔ : Δ with
      | nil =>
          have hct0 : ct = 0 := hΔct hΔ
          subst hct0
          rw [show read_line_length [(0 : Nat)] = (0, 1) from rfl]
          simp [hΔ]
      | cons d ds =>
          rw [rll_small ct (by omega) _ _]
          simp
    · rw [if_neg htotw]
      have e1 : read_line_length (write_line_length (Δ.length + 3) ++
          off :: (write_line_length ct ++ Δ)) = (Δ.length + 3, 1) := by
        rw [wll_small (by omega)]
        exact rll_small (Δ.length + 3) (by omega) _ _
      unfold parseLine
      rw [e1]
      rw [wll_small (show Δ.length + 3 ≤ 0x7F from by omega), hctbytes]
      simp only [List.cons_append, List.nil_append]
      simp only [List.drop]
      simp
      rw [rll_small off hoff _ _]
      simp
      cases hΔ : Δ with
      | nil =>
          have hct0 : ct = 0 := hΔct hΔ
          subst hct0
          rw [show read_line_length [(0 : Nat)] = (0, 1) from rfl]
          simp [hΔ]
      | cons d ds =>
          rw [rll_small ct (by omega) _ _]
          simp

/-- C1 (amended): for a row whose pixels are representable, whose trailing
pixel is not the transparent sentinel, whose leading transparent run fits
the 1-byte offset field, whose opcode stream fits the header bound, that is
followed by further frame data (the non-matching look-ahead reads one pixel
past the row), and an active-color palette (if any) that has distinct keys
in [0, 31] and matches the decoder palette, decoding the encoder's output
(header plus opcode stream) yields exactly the row, including its leading
transparent pixels. -/
theorem roundtrip_representable
    (copt : Option (Nat × List (Nat × Pixel))) (pal : List (Nat × Pixel))
    (hcopt : ∀ c pl, copt = some (c, pl) →
      pl = pal ∧ (pl.map Prod.fst).Nodup ∧ ∀ e ∈ pl, e.1 ≤ 31)
    (row after : List Pixel) (hafter : after ≠ [])
    (hrep : ∀ p ∈ row, Representable p)
    (hlast : ∀ q, row.getLast? = some q → q ≠ transparency)
    (hoff : leadingTransparent row ≤ 0x7F)
    (hsz : 3 * row.length ≤ 0x7FFA) :
    ∃ bytes, encodeLine copt (row ++ after) row.length 0 = some bytes ∧
      decodeLine pal bytes = some row := by
  have hLle := leadingTransparent_le row
  have htrans := leadingTransparent_lt row
  have hpadeq := encodeLineLoop_padding copt row after (leadingTransparent row) hLle
    htrans (fun h => leadingTransparent_stop row h) hafter (leadingTransparent row)
    0 0 0 [] none (by omega) (by omega)
  have hpre : (false = true) ∨ row[leadingTransparent row]? ≠ some transparency := by
    right
    by_cases hLlt : leadingTransparent row < row.length
    · exact leadingTransparent_stop row hLlt
    · rw [List.getElem?_eq_none_iff.mpr (by omega)]
      simp
  obtain ⟨Δ, hres, hlenΔ, hcomp⟩ := encodeLineLoop_main copt pal hcopt row after hafter
    hrep hlast row.length (leadingTransparent row)
    (0 + (leadingTransparent row - 0)) 0 false [] none (by omega) (by omega) hpre
  have hloop : encodeLineLoop copt (row ++ after) row.length 0 0 0 0 false [] none =
      some ([] ++ Δ, 0 + (row.length - leadingTransparent row),
        0 + (leadingTransparent row - 0)) := by
    rw [hpadeq]
    exact hres
  have hloop2 : encodeLineLoop copt (row ++ after) row.length 0 0 0 0 false [] none =
      some (Δ, row.length - leadingTransparent row, leadingTransparent row) := by
    simpa using hloop
  have hnil : decodeOps pal 0 [] = some [] := by
    unfold decodeOps
    simp
  have hdec : decodeOps pal Δ.length Δ = some (row.drop (leadingTransparent row)) := by
    have hd := hcomp 0 [] [] hnil
    simpa using hd
  have hΔct : Δ = [] → row.length - leadingTransparent row = 0 := by
    intro h0
    rw [h0] at hdec
    simp only [List.length_nil] at hdec
    rw [hnil] at hdec
    have hdrop : ([] : List Pixel) = row.drop (leadingTransparent row) :=
      Option.some.inj hdec
    have := List.drop_eq_nil_iff.mp hdrop.symm
    omega
  obtain ⟨bytes, hhdr, hparse⟩ := parseLine_header Δ
    (row.length - leadingTransparent row) (leadingTransparent row)
    (by omega) hoff (by omega) hΔct
  have htk : row.take (leadingTransparent row) =
      List.replicate (leadingTransparent row) transparency := by
    have := drop_take_eq_replicate row 0 (leadingTransparent row) transparency
      (by omega) (fun j hj => by simpa using htrans j hj)
    simpa using this
  have hout : List.replicate (leadingTransparent row) transparency ++
      row.drop (leadingTransparent row) = row := by
    rw [← htk]
    exact List.take_append_drop (leadingTransparent row) row
  refine ⟨bytes, ?_, ?_⟩
  · unfold encodeLine
    rw [hloop2]
    exact hhdr
  · unfold decodeLine
    rw [hparse]
    unfold extractLine
    simp only []
    rw [hdec]
    simp only []
    rw [hout]
    rw [show List.replicate (row.length - leadingTransparent row - row.length)
      transparency = [] from by rw [show row.length - leadingTransparent row -
        row.length = 0 from by omega]; rfl]
    simp

/-- Counterexample to C1 as stated: the representable row
[opaque red, transparent] round-trips to [opaque red] alone - the encoder
stops at a trailing transparent run without counting it (`ct_pixels`
excludes it and no opcode is emitted), so the decoder has no record of the
trailing transparent pixel and the round-trip drops it. -/
theorem roundtrip_trailing_transparency_counterexample :
    encodeLine none ([Pixel.mk 255 0 0 255, transparency] ++ [Pixel.mk 255 0 0 255])
        2 0 = some [6, 0, 1, 2 * 32 + 1, 0, 248] ∧
    decodeLine [] [6, 0, 1, 2 * 32 + 1, 0, 248] = some [Pixel.mk 255 0 0 255] ∧
    ([Pixel.mk 255 0 0 255] : List Pixel) ≠ [Pixel.mk 255 0 0 255, transparency] := by
  refine ⟨?_, ?_, by decide⟩
  · simp [encodeLine, encodeLineLoop, look_ahead_matching, look_ahead_non_matching,
      look_ahead_nm_loop, paletteBreakTruthy, literalBytes, pixelBody, quant5, quant6,
      rnd, encodeLineHeader, write_line_length, transparency, shadow, maxAlpha]
  · simp [decodeLine, parseLine, read_line_length, extractLine, decodeOps, decodeOp,
      readRun, Pixel.from_int, expand5, expand6, rnd, transparency]

/-- Witness for C1 (amended) at the one-pixel opaque red row followed by one
further pixel of frame data. -/
theorem roundtrip_representable_witness :
    ∃ bytes,
      encodeLine none ([Pixel.mk 255 0 0 255] ++ [Pixel.mk 255 0 0 255])
        [Pixel.mk 255 0 0 255].length 0 = some bytes ∧
      decodeLine [] bytes = some [Pixel.mk 255 0 0 255] :=
  roundtrip_representable none [] (fun _ _ h => Option.noConfusion h)
    [Pixel.mk 255 0 0 255] [Pixel.mk 255 0 0 255] (by decide) (by decide)
    (by
      intro q hq
      simp at hq
      subst hq
      decide)
    (by decide) (by decide)
